import Mathlib

/-!
Shallow embedding of `src/aggregatemonthly.js` (MMF-Data): aggregation of
daily money-market-fund records into monthly summaries.

Modelling conventions:
* JavaScript numbers are modelled as exact rationals (`ℚ`).
* `+x.toFixed(2)` is modelled by `round2` (round to 2 decimals, ties
  toward +infinity, matching the ES `toFixed` tie rule "pick the larger
  candidate").
* `+Math.sqrt(v).toFixed(2)` is modelled exactly by `round2sqrt`, which
  computes `⌊100·√v + 1/2⌋ / 100` with integer square-root arithmetic.
* A JavaScript `TypeError` from accessing a field of `undefined` inside
  the per-record `try` is modelled by an `Option` field being `none`:
  processing of that record stops at the access and mutations made
  before the throw persist (as in the source, where the months `Map`
  lives outside the `try`).  One failure is special: the `catch` block's
  log template itself reads `dayData.metadata.date`, so when `metadata`
  is missing the `catch` throws a second, uncaught `TypeError` and the
  whole aggregation aborts — `processMonthlyDataE` models that fatal
  path; every other `none` field is caught, logged and skipped per
  record.
* JS `Map` (insertion-ordered) is an association list; `Array.sort(cmp)`
  (stable, and turning a NaN comparator result into `+0` per ES
  `SortCompare`) is the stable insertion sort `sortCmp`.
-/

/-- `+x.toFixed(2)`: round to two decimal places, ties toward +infinity. -/
def round2 (x : ℚ) : ℚ := (⌊x * 100 + 1/2⌋ : ℚ) / 100

/-- Stable insertion of `x` into `l` for a JS comparator `cmp`: `x` is
placed after every element `y` with `cmp y x ≤ 0` in the sorted prefix. -/
def insertCmp {α : Type} (cmp : α → α → ℚ) : List α → α → List α
  | [], x => [x]
  | y :: ys, x => if cmp y x ≤ 0 then y :: insertCmp cmp ys x else x :: y :: ys

/-- JS `Array.prototype.sort(cmp)`: stable comparator sort. -/
def sortCmp {α : Type} (cmp : α → α → ℚ) (l : List α) : List α :=
  l.foldl (insertCmp cmp) []

/-- `statistics.average` from the source: 0 on an empty array, else the
2-dp rounding of `sum / length` (the rounding is part of `average`). -/
def statistics.average (arr : List ℚ) : ℚ :=
  if arr.isEmpty then 0 else round2 ((arr.foldl (· + ·) 0) / arr.length)

/-- `statistics.median` from the source: 0 on empty; sorts ascending and
takes the middle element (odd) or the mean of the two middle ones (even),
rounded to 2 dp. -/
def statistics.median (arr : List ℚ) : ℚ :=
  if arr.isEmpty then 0 else
  let sorted := sortCmp (fun a b => a - b) arr
  let mid := sorted.length / 2
  if sorted.length % 2 = 0 then
    round2 ((sorted.getD (mid - 1) 0 + sorted.getD mid 0) / 2)
  else round2 (sorted.getD mid 0)

/-- Binary search for the integer square root, on the invariant
`lo * lo ≤ n < hi * hi` with `fuel ≥ hi - lo`; kernel-reducible
(structural recursion on `fuel`), unlike `Nat.sqrt`. -/
def isqrtGo (n : ℕ) : ℕ → ℕ → ℕ → ℕ
  | 0, lo, _ => lo
  | fuel + 1, lo, hi =>
    let mid := (lo + hi) / 2
    if mid = lo then lo
    else if mid * mid ≤ n then isqrtGo n fuel mid hi else isqrtGo n fuel lo mid

/-- `⌊√n⌋` for naturals. -/
def isqrt (n : ℕ) : ℕ := isqrtGo n (n + 1) 0 (n + 1)

/-- `⌊x⌋` for rationals, kernel-reducible (`Int.fdiv` is floor division). -/
def ratFloor (x : ℚ) : ℤ := x.num.fdiv x.den

/-- Largest natural `m` with `m ≤ √x`, for `x ≥ 0` (so `⌊√x⌋`). -/
def ratSqrtFloor (x : ℚ) : ℕ := isqrt (ratFloor x).toNat

/-- Nearest integer to `√x` for `x ≥ 0`, ties rounded up: `⌊√x + 1/2⌋`.
Characterisation: the result is `m := ⌊√x⌋` when `√x < m + 1/2`, i.e.
when `4x < (2m+1)^2`, else `m + 1`. -/
def roundSqrt (x : ℚ) : ℕ :=
  let m := ratSqrtFloor x
  if x * 4 < ((2 * m + 1) ^ 2 : ℕ) then m else m + 1

/-- `+Math.sqrt(v).toFixed(2)` computed exactly on rationals:
`round2 (√v) = ⌊√(10000·v) + 1/2⌋ / 100`. -/
def round2sqrt (v : ℚ) : ℚ := (roundSqrt (v * 10000) : ℚ) / 100

/-- `statistics.stdDev` from the source: 0 on empty; otherwise the square
root of the mean squared deviation from `statistics.average arr` — note
the source takes deviations from the already-rounded `average`. -/
def statistics.stdDev (arr : List ℚ) : ℚ :=
  if arr.isEmpty then 0 else
  let mean := statistics.average arr
  let variance := (arr.foldl (fun acc val => acc + (val - mean) ^ 2) 0) / arr.length
  round2sqrt variance

/-- One fund entry of a day's `funds` array. -/
structure FundSample where
  name : String
  nominalRate : ℚ
  afterTaxReturn : ℚ
  realReturn : ℚ
deriving DecidableEq, Repr

/-- `dayData.metadata.statistics.average`: the day's cross-fund triple,
supplied by the input. -/
structure StatTriple where
  nominalRate : ℚ
  afterTaxReturn : ℚ
  realReturn : ℚ
deriving DecidableEq, Repr

/-- `dayData.metadata`.  `date = none` models a missing or non-string
`date`: reading `.split` on it throws, the `catch` fires, and the
`catch`'s log template stringifies the `undefined` date harmlessly, so
the record is skipped and the run continues.  `statistics = none`
models a missing `statistics`/`statistics.average`: the access inside
`addStatistics` throws, likewise caught per-record. -/
structure Metadata where
  date : Option String
  statistics : Option StatTriple
deriving DecidableEq, Repr

/-- One element of the input array.  `metadata = none` models a record
without a usable `metadata` object (absent or `null` — a `null` array
element behaves the same way): the `try` throws reading `.date`, and
then the `catch` block throws AGAIN evaluating `dayData.metadata.date`
inside its log template; that second `TypeError` is uncaught, so unlike
every other per-record failure it aborts all of `processMonthlyData`
(see `processMonthlyDataE`).  `funds = none` models a missing `funds`
array: `forEach` on `undefined` throws after the bucket exists, and is
caught per-record. -/
structure DailyRecord where
  metadata : Option Metadata
  funds : Option (List FundSample)
deriving DecidableEq, Repr

/-- The `FundMetrics` accumulator class: three sample lists and a count. -/
structure FundMetrics where
  nominalRates : List ℚ
  afterTaxReturns : List ℚ
  realReturns : List ℚ
  count : ℕ
deriving DecidableEq, Repr

def FundMetrics.empty : FundMetrics := ⟨[], [], [], 0⟩

/-- `FundMetrics.addMetrics`: push one triple and bump the count. -/
def FundMetrics.addMetrics (m : FundMetrics) (nominal afterTax real : ℚ) : FundMetrics :=
  { nominalRates := m.nominalRates ++ [nominal]
    afterTaxReturns := m.afterTaxReturns ++ [afterTax]
    realReturns := m.realReturns ++ [real]
    count := m.count + 1 }

/-- Result shape of `FundMetrics.getAverages`. -/
structure Averages where
  nominalRate : ℚ
  afterTaxReturn : ℚ
  realReturn : ℚ
  dataPoints : ℕ
deriving DecidableEq, Repr

def FundMetrics.getAverages (m : FundMetrics) : Averages :=
  { nominalRate := statistics.average m.nominalRates
    afterTaxReturn := statistics.average m.afterTaxReturns
    realReturn := statistics.average m.realReturns
    dataPoints := m.count }

/-- One metric's entry in `getDetailedStats`. -/
structure DetailedMetric where
  average : ℚ
  median : ℚ
  stdDev : ℚ
deriving DecidableEq, Repr

/-- Result shape of `FundMetrics.getDetailedStats`. -/
structure DetailedStats where
  nominalRate : DetailedMetric
  afterTaxReturn : DetailedMetric
  realReturn : DetailedMetric
  dataPoints : ℕ
deriving DecidableEq, Repr

def FundMetrics.getDetailedStats (m : FundMetrics) : DetailedStats :=
  { nominalRate := ⟨statistics.average m.nominalRates, statistics.median m.nominalRates,
        statistics.stdDev m.nominalRates⟩
    afterTaxReturn := ⟨statistics.average m.afterTaxReturns, statistics.median m.afterTaxReturns,
        statistics.stdDev m.afterTaxReturns⟩
    realReturn := ⟨statistics.average m.realReturns, statistics.median m.realReturns,
        statistics.stdDev m.realReturns⟩
    dataPoints := m.count }

/-- The `MonthData` class: a per-fund map (insertion-ordered, keyed by
fund name) and the portfolio-level accumulator. -/
structure MonthData where
  fundsData : List (String × FundMetrics)
  statistics : FundMetrics
deriving DecidableEq, Repr

def MonthData.empty : MonthData := ⟨[], FundMetrics.empty⟩

/-- `MonthData.addFundData`: create the fund's accumulator on first sight
of the name, then push the fund's triple onto it. -/
def MonthData.addFundData (md : MonthData) (fund : FundSample) : MonthData :=
  let fd := if md.fundsData.any (fun p => p.1 = fund.name) then md.fundsData
            else md.fundsData ++ [(fund.name, FundMetrics.empty)]
  { md with fundsData := fd.map fun p =>
      if p.1 = fund.name then (p.1, p.2.addMetrics fund.nominalRate fund.afterTaxReturn fund.realReturn)
      else p }

/-- `MonthData.addStatistics`: push the day's portfolio triple. -/
def MonthData.addStatistics (md : MonthData) (stats : StatTriple) : MonthData :=
  { md with statistics := md.statistics.addMetrics stats.nominalRate stats.afterTaxReturn stats.realReturn }

/-- Split a character list at every blank, JS-style: `split(" ")` keeps
empty fragments and maps the empty input to one empty fragment. -/
def splitAux : List Char → List Char → List (List Char)
  | [], acc => [acc.reverse]
  | c :: cs, acc => if c = ' ' then acc.reverse :: splitAux cs [] else splitAux cs (c :: acc)

/-- JS `s.split(" ")` (single-blank separator). -/
def jsSplit (s : String) : List String := (splitAux s.data []).map fun l => ⟨l⟩

/-- ASCII uppercasing of one character (`a`–`z` to `A`–`Z`). -/
def upChar (c : Char) : Char :=
  if 97 ≤ c.toNat ∧ c.toNat ≤ 122 then Char.ofNat (c.toNat - 32) else c

/-- JS `s.toUpperCase()`, restricted to ASCII input. -/
def jsToUpper (s : String) : String := ⟨s.data.map upChar⟩

/-- The bucket key: `` `${month} ${year}`.toUpperCase() `` where
`[day, month, year] = date.split(" ")`; a missing destructured component
is `undefined`, which the template literal stringifies. -/
def monthYearKey (date : String) : String :=
  let parts := jsSplit date
  let month := (parts[1]?).getD "undefined"
  let year := (parts[2]?).getD "undefined"
  jsToUpper (month ++ " " ++ year)

/-- The `monthsMap` of `processMonthlyData`: a JS `Map` in insertion
order. -/
abbrev MonthsMap := List (String × MonthData)

def lookupBucket : MonthsMap → String → Option MonthData
  | [], _ => none
  | p :: ps, k => if p.1 = k then some p.2 else lookupBucket ps k

/-- `if (!monthsMap.has(key)) monthsMap.set(key, new MonthData())`. -/
def ensureBucket (m : MonthsMap) (k : String) : MonthsMap :=
  if (lookupBucket m k).isSome then m else m ++ [(k, MonthData.empty)]

/-- Mutation of the bucket stored at key `k`. -/
def mapUpdate (m : MonthsMap) (k : String) (f : MonthData → MonthData) : MonthsMap :=
  m.map fun p => if p.1 = k then (p.1, f p.2) else p

/-- The body of the per-record `try` after the bucket exists: run
`funds.forEach(addFundData)`, then `addStatistics` with
`metadata.statistics.average`.  A `none` argument throws at that point;
the `catch` logs (the record's `metadata.date` is a string here, so the
log template is harmless), the partial mutation stands, and the run
continues with the next record. -/
def recordUpdate (funds : Option (List FundSample)) (stats : Option StatTriple)
    (md : MonthData) : MonthData :=
  match funds with
  | none => md
  | some fs =>
    let md2 := fs.foldl MonthData.addFundData md
    match stats with
    | none => md2
    | some st => md2.addStatistics st

/-- One iteration of `dailyData.forEach`, as its effect on `monthsMap`.
`metadata = none`: the `try` throws reading `.date` and nothing was
added — this case is FATAL for the whole run (the `catch` re-throws;
`processMonthlyDataE` accounts for it), so this branch only records that
the map is unchanged at the moment of the abort.  `metadata.date =
none`: `.split` throws, the `catch` logs harmlessly and the record is
skipped, the run continuing.  Otherwise the bucket is created (this
precedes the fallible part and persists even if the rest throws) and
then updated. -/
def processRecord (acc : MonthsMap) (r : DailyRecord) : MonthsMap :=
  match r.metadata with
  | none => acc
  | some meta =>
    match meta.date with
    | none => acc
    | some d =>
      let key := monthYearKey d
      mapUpdate (ensureBucket acc key) key (recordUpdate r.funds meta.statistics)

/-- The grouping pass of `processMonthlyData`. -/
def buildMonths (dailyData : List DailyRecord) : MonthsMap :=
  dailyData.foldl processRecord []

/-- A fund entry after `getAverages`, before ranking. -/
structure FundAvg where
  name : String
  nominalRate : ℚ
  afterTaxReturn : ℚ
  realReturn : ℚ
  dataPoints : ℕ
deriving DecidableEq, Repr

/-- `{ name, ...metrics.getAverages() }`. -/
def toFundAvg (p : String × FundMetrics) : FundAvg :=
  let a := p.2.getAverages
  ⟨p.1, a.nominalRate, a.afterTaxReturn, a.realReturn, a.dataPoints⟩

/-- `(a, b) => b.nominalRate - a.nominalRate`: descending by average
nominal rate. -/
def fundCmp (a b : FundAvg) : ℚ := b.nominalRate - a.nominalRate

/-- A fund entry after `rank: index + 1` is added. -/
structure RankedFund where
  name : String
  nominalRate : ℚ
  afterTaxReturn : ℚ
  realReturn : ℚ
  dataPoints : ℕ
  rank : ℕ
deriving DecidableEq, Repr

/-- `.map((fund, index) => ({ ...fund, rank: index + 1 }))`. -/
def rankFrom (i : ℕ) : List FundAvg → List RankedFund
  | [] => []
  | f :: fs => ⟨f.name, f.nominalRate, f.afterTaxReturn, f.realReturn, f.dataPoints, i + 1⟩ ::
      rankFrom (i + 1) fs

/-- One output record. `topPerformer` is `{ ...funds[0] }`: spreading
`undefined` yields `{}`, modelled by `none`; likewise for
`bottomPerformer` with `funds[funds.length - 1]`. -/
structure MonthSummary where
  month : String
  source : String
  average : Averages
  detailed : DetailedStats
  totalFunds : ℕ
  topPerformer : Option RankedFund
  bottomPerformer : Option RankedFund
  funds : List RankedFund
deriving DecidableEq, Repr

/-- The per-bucket part of the "convert to final format" map. -/
def monthFromBucket (monthYear : String) (data : MonthData) : MonthSummary :=
  let funds := rankFrom 0 (sortCmp fundCmp (data.fundsData.map toFundAvg))
  { month := monthYear
    source := "Daily Nation and M-PESA APP"
    average := data.statistics.getAverages
    detailed := data.statistics.getDetailedStats
    totalFunds := funds.length
    topPerformer := funds.head?
    bottomPerformer := funds.getLast?
    funds := funds }

/-- The fixed 12-month table of the chronological comparator. -/
def monthTable : List String :=
  ["JANUARY", "FEBRUARY", "MARCH", "APRIL", "MAY", "JUNE",
   "JULY", "AUGUST", "SEPTEMBER", "OCTOBER", "NOVEMBER", "DECEMBER"]

/-- JS `Array.prototype.indexOf` on a string list: first index of `s`
counting from `i`, `-1` if absent. -/
def indexOfAux : List String → String → ℤ → ℤ
  | [], _, _ => -1
  | x :: xs, s, i => if x = s then i else indexOfAux xs s (i + 1)

/-- Decimal value of a digit list. -/
def natOfDigits (cs : List Char) : ℕ := cs.foldl (fun n c => n * 10 + (c.toNat - 48)) 0

/-- JS `ToNumber` of a string-or-undefined, restricted to what this
program meets: a digit string (possibly empty, `Number("") = 0`) has its
decimal value; `undefined` and any non-digit string are NaN (`none`). -/
def jsNumber : Option String → Option ℚ
  | none => none
  | some s => if s.data.all (·.isDigit) then some (natOfDigits s.data) else none

/-- Comparator value of `aYear - bYear`.  ES `SortCompare` turns a NaN
comparator result into `+0`, so a NaN difference is modelled as 0. -/
def jsNumDiff (a b : Option String) : ℚ :=
  match jsNumber a, jsNumber b with
  | some x, some y => x - y
  | _, _ => 0

/-- The chronological comparator of the final `.sort`, on month keys:
`[aMonth, aYear] = a.split(" ")`; string-distinct years are compared by
numeric difference, string-equal years by `indexOf` in `monthTable`. -/
def monthKeyCmp (a b : String) : ℚ :=
  let pa := jsSplit a
  let pb := jsSplit b
  let aYear := pa[1]?
  let bYear := pb[1]?
  if aYear ≠ bYear then jsNumDiff aYear bYear
  else ((indexOfAux monthTable (pa.headD "") 0 - indexOfAux monthTable (pb.headD "") 0 : ℤ) : ℚ)

def monthCmp (a b : MonthSummary) : ℚ := monthKeyCmp a.month b.month

/-- `processMonthlyData`: group, reduce each bucket, sort
chronologically.  This is the value the loop computes when no record
triggers the fatal re-throw; `processMonthlyDataE` is the function as
the program actually behaves, fatal path included. -/
def processMonthlyData (dailyData : List DailyRecord) : List MonthSummary :=
  sortCmp monthCmp ((buildMonths dailyData).map fun p => monthFromBucket p.1 p.2)

/-- `processMonthlyData` including the fatal path: if any record lacks
its `metadata` object, the `forEach` reaches it (the records before it
are processed normally, caught failures included), its `try` throws
reading `.date`, and the `catch` block throws again evaluating
`dayData.metadata.date` in its log template.  That second `TypeError`
is uncaught inside `processMonthlyData`, so the whole aggregation
aborts with no result (`none`); `main` catches it and exits non-zero.
Otherwise the loop runs to completion. -/
def processMonthlyDataE (dailyData : List DailyRecord) : Option (List MonthSummary) :=
  if dailyData.all (fun r => r.metadata.isSome) then some (processMonthlyData dailyData)
  else none

/-- The overall summary block that `main` builds. -/
structure OverallSummary where
  totalMonths : ℕ
  startMonth : String
  endMonth : String
  averageNumberOfFunds : ℚ
deriving DecidableEq, Repr

/-- The summary step of `main` after `processMonthlyData`: on an empty
result, `monthlyData[0].metadata` throws a `TypeError` (modelled `none`),
which `main` catches and turns into a non-zero exit. -/
def buildSummary : List MonthSummary → Option OverallSummary
  | [] => none
  | first :: rest =>
    let monthly := first :: rest
    some { totalMonths := monthly.length
           startMonth := first.month
           endMonth := (monthly.getLast?.getD first).month
           averageNumberOfFunds :=
             round2 ((monthly.foldl (fun s m => s + (m.totalFunds : ℚ)) 0) / monthly.length) }

/-- The in-memory core of `main`: aggregate (surfacing the uncaught
per-record `TypeError`, if any), then build the summary; `none` is the
caught-and-fatal error path ending in a non-zero exit. -/
def mainCore (dailyData : List DailyRecord) : Option (OverallSummary × List MonthSummary) :=
  match processMonthlyDataE dailyData with
  | none => none
  | some monthlyData => (buildSummary monthlyData).map fun s => (s, monthlyData)


/-! ### Auxiliary definitions used by the verification -/

/-- The effect of one input record on the bucket stored at a fixed key
(used to state the grouping invariant). -/
def stepAt (key : String) (o : Option MonthData) (r : DailyRecord) : Option MonthData :=
  match r.metadata with
  | none => o
  | some meta =>
    match meta.date with
    | none => o
    | some d =>
      if monthYearKey d = key then
        some (recordUpdate r.funds meta.statistics (o.getD MonthData.empty))
      else o

/-- Cumulative effect of a record list on the bucket at `key`. -/
def applyAt (key : String) (rs : List DailyRecord) (o : Option MonthData) : Option MonthData :=
  rs.foldl (stepAt key) o

/-- The portfolio samples accumulated into bucket `key`: one value per
input record that reaches `addStatistics` for that bucket (its date maps
to `key`, and both `funds` and `statistics` are present), in input order. -/
def portfolioSamples (proj : StatTriple → ℚ) (key : String) (rs : List DailyRecord) : List ℚ :=
  rs.filterMap fun r =>
    match r.metadata with
    | none => none
    | some meta =>
      match meta.date, r.funds, meta.statistics with
      | some d, some _, some st => if monthYearKey d = key then some (proj st) else none
      | _, _, _ => none

/-- Modelled from the spec (§4.1 wording) for claim C3: population
standard deviation of the raw samples about the UNROUNDED mean, rounded
only at the point of producing the reported value. -/
def stdDevSpec (arr : List ℚ) : ℚ :=
  if arr.isEmpty then 0 else
  let mean : ℚ := (arr.foldl (· + ·) 0) / (arr.length : ℚ)
  round2sqrt ((arr.foldl (fun acc val => acc + (val - mean) ^ 2) 0) / arr.length)

/-- Claim C5's MonthKey exactly as worded: the uppercased month token
paired with the (raw) year token of the date string. -/
def specKeyRaw (date : String) : String × String :=
  let parts := jsSplit date
  (jsToUpper ((parts[1]?).getD "undefined"), (parts[2]?).getD "undefined")

/-- MonthKey with the year token uppercased as well — what the code's
single uppercased bucket string actually encodes. -/
def specKeyUpper (date : String) : String × String :=
  let parts := jsSplit date
  (jsToUpper ((parts[1]?).getD "undefined"), jsToUpper ((parts[2]?).getD "undefined"))

/-- Month token of a bucket key (first fragment of the key string). -/
def keyMonthTok (key : String) : String := (jsSplit key).headD ""

/-- Year token slot of a bucket key (second fragment, if any). -/
def keyYearTok (key : String) : Option String := (jsSplit key)[1]?

/-- Claim C6's "year interpreted as an integer" for a month key. -/
def specYearNat (key : String) : ℕ := natOfDigits ((keyYearTok key).getD "").data

/-- Claim C6's "calendar index of the month name" for a month key. -/
def specMonthIdx (key : String) : ℤ := indexOfAux monthTable (keyMonthTok key) 0

/-- Claim C6's chronological order on month summaries: lexicographic on
(year as integer, calendar index of the month name). -/
def chronLE (a b : MonthSummary) : Prop :=
  specYearNat a.month < specYearNat b.month ∨
    (specYearNat a.month = specYearNat b.month ∧ specMonthIdx a.month ≤ specMonthIdx b.month)

instance : ∀ a b : MonthSummary, Decidable (chronLE a b) := fun a b => by
  unfold chronLE
  infer_instance

/-- Does the year-token slot hold a pure digit string? -/
def yearDigits : Option String → Bool
  | none => false
  | some y => y.data.all (·.isDigit)

/-- Well-formed month key for claim C6: recognised month name and a
digit-string year token. -/
def wfMonthKey (key : String) : Prop :=
  keyMonthTok key ∈ monthTable ∧ yearDigits (keyYearTok key) = true

instance : ∀ k, Decidable (wfMonthKey k) := fun k => by
  unfold wfMonthKey
  infer_instance

/-! ### Concrete inputs used by witnesses and counterexamples -/

def exTriple : StatTriple := ⟨2, 1, -1⟩

def exRecEmptyDate : DailyRecord := ⟨some ⟨some "", some exTriple⟩, some [⟨"Fund A", 5, 4, 3⟩]⟩

def exRecNoFunds : DailyRecord := ⟨some ⟨some "01 January 2024", some exTriple⟩, none⟩

def exRecFeb : DailyRecord := ⟨some ⟨some "01 February 2024", some exTriple⟩, some [⟨"Fund B", 7, 6, 5⟩]⟩

def exC2Jan : DailyRecord := ⟨some ⟨some "01 January 2023", some exTriple⟩, some []⟩

def exC2Bogus : DailyRecord := ⟨some ⟨some "01 Bogus 2023", some exTriple⟩, some []⟩

def exC5a : DailyRecord := ⟨some ⟨some "01 Jan 2024x", some exTriple⟩, some []⟩

def exC5b : DailyRecord := ⟨some ⟨some "01 Jan 2024X", some exTriple⟩, some []⟩

def exC5jan1 : DailyRecord := ⟨some ⟨some "01 January 2024", some exTriple⟩, some []⟩

def exC5jan2 : DailyRecord := ⟨some ⟨some "15 JANUARY 2024", some exTriple⟩, some []⟩

def exC6bad : List DailyRecord :=
  [⟨some ⟨some "01 December 02023", some exTriple⟩, some []⟩,
   ⟨some ⟨some "01 January 2023", some exTriple⟩, some []⟩]

def exC6good : List DailyRecord :=
  [⟨some ⟨some "01 March 2023", some exTriple⟩, some []⟩,
   ⟨some ⟨some "01 January 2024", some exTriple⟩, some []⟩,
   ⟨some ⟨some "01 December 2023", some exTriple⟩, some []⟩]

def exC8 : List DailyRecord :=
  [⟨some ⟨some "03 January 2024", some exTriple⟩, some [⟨"A", 5, 0, 0⟩, ⟨"B", 7, 0, 0⟩]⟩]

def defaultMonth : MonthSummary := monthFromBucket "NONE" MonthData.empty

def exC8month : MonthSummary := (processMonthlyData exC8).headD defaultMonth

def exC4month : MonthSummary := (processMonthlyData exC8).headD defaultMonth

def exC9 : List DailyRecord :=
  [⟨some ⟨some "05 January 2024", some ⟨2, 0, 0⟩⟩, some [⟨"A", 1, 0, 0⟩, ⟨"B", 3, 0, 0⟩]⟩,
   ⟨some ⟨some "06 January 2024", some ⟨5, 0, 0⟩⟩, some [⟨"A", 5, 0, 0⟩]⟩]

def exC9month : MonthSummary := (processMonthlyData exC9).headD defaultMonth

def exC10 : List DailyRecord := [⟨some ⟨some "01 January 2024", some exTriple⟩, some []⟩]

def exC10month : MonthSummary := (processMonthlyData exC10).headD defaultMonth


/-! ### Generic lemmas about the comparator sort -/

section SortLemmas

variable {α : Type} (cmp : α → α → ℚ)

theorem insertCmp_perm (l : List α) (x : α) : (insertCmp cmp l x).Perm (x :: l) := by
  induction l with
  | nil => simp [insertCmp]
  | cons y ys ih =>
    simp only [insertCmp]
    split
    · exact (ih.cons y).trans (List.Perm.swap x y ys)
    · exact List.Perm.refl _

theorem foldl_insertCmp_perm :
    ∀ (l acc : List α), (l.foldl (insertCmp cmp) acc).Perm (acc ++ l) := by
  intro l
  induction l with
  | nil => intro acc; simp
  | cons x l ih =>
    intro acc
    refine ((ih (insertCmp cmp acc x)).trans ?_)
    refine (((insertCmp_perm cmp acc x).append_right l).trans ?_)
    exact List.perm_middle.symm

theorem sortCmp_perm (l : List α) : (sortCmp cmp l).Perm l := by
  simpa using foldl_insertCmp_perm cmp l []

theorem mem_sortCmp {a : α} {l : List α} : a ∈ sortCmp cmp l ↔ a ∈ l :=
  (sortCmp_perm cmp l).mem_iff

/-- Inserting into a comparator-sorted list keeps it sorted, provided the
comparator is total and transitive on a class `P` covering the elements. -/
theorem insertCmp_pairwise (P : α → Prop)
    (htot : ∀ a b, P a → P b → cmp a b ≤ 0 ∨ cmp b a ≤ 0)
    (htrans : ∀ a b c, P a → P b → P c → cmp a b ≤ 0 → cmp b c ≤ 0 → cmp a c ≤ 0)
    (l : List α) (x : α) (hl : ∀ y ∈ l, P y) (hx : P x)
    (hp : l.Pairwise fun a b => cmp a b ≤ 0) :
    (insertCmp cmp l x).Pairwise fun a b => cmp a b ≤ 0 := by
  induction l with
  | nil => simp [insertCmp]
  | cons y ys ih =>
    rw [List.pairwise_cons] at hp
    obtain ⟨hy, hys⟩ := hp
    by_cases h : cmp y x ≤ 0
    · simp only [insertCmp, if_pos h]
      rw [List.pairwise_cons]
      refine ⟨?_, ih (fun z hz => hl z (List.mem_cons_of_mem y hz)) hys⟩
      intro z hz
      rcases List.mem_cons.mp ((insertCmp_perm cmp ys x).mem_iff.mp hz) with hzx | hzys
      · exact hzx ▸ h
      · exact hy z hzys
    · simp only [insertCmp, if_neg h]
      have hPy : P y := hl y (List.mem_cons_self y ys)
      have hxy : cmp x y ≤ 0 := (htot x y hx hPy).resolve_right h
      rw [List.pairwise_cons]
      refine ⟨?_, List.pairwise_cons.mpr ⟨hy, hys⟩⟩
      intro z hz
      rcases List.mem_cons.mp hz with hzy | hzys
      · exact hzy ▸ hxy
      · exact htrans x y z hx hPy (hl z (List.mem_cons_of_mem y hzys)) hxy (hy z hzys)

/-- The comparator sort is sorted in the comparator's sense, under the
same conditions on `P`. -/
theorem sortCmp_pairwise (P : α → Prop)
    (htot : ∀ a b, P a → P b → cmp a b ≤ 0 ∨ cmp b a ≤ 0)
    (htrans : ∀ a b c, P a → P b → P c → cmp a b ≤ 0 → cmp b c ≤ 0 → cmp a c ≤ 0)
    (l : List α) (hl : ∀ y ∈ l, P y) :
    (sortCmp cmp l).Pairwise fun a b => cmp a b ≤ 0 := by
  suffices h : ∀ (l acc : List α), (∀ y ∈ l, P y) → (∀ y ∈ acc, P y) →
      (acc.Pairwise fun a b => cmp a b ≤ 0) →
      (l.foldl (insertCmp cmp) acc).Pairwise fun a b => cmp a b ≤ 0 by
    exact h l [] hl (by simp) (by simp)
  intro l
  induction l with
  | nil => intro acc _ _ hacc; exact hacc
  | cons x l ih =>
    intro acc hxl hacc hpacc
    have hx : P x := hxl x (List.mem_cons_self x l)
    refine ih (insertCmp cmp acc x) (fun y hy => hxl y (List.mem_cons_of_mem x hy)) ?_ ?_
    · intro y hy
      rcases List.mem_cons.mp ((insertCmp_perm cmp acc x).mem_iff.mp hy) with hyx | hyacc
      · exact hyx ▸ hx
      · exact hacc y hyacc
    · exact insertCmp_pairwise cmp P htot htrans acc x hacc hx hpacc

/-- For a key-difference comparator, inserting `x` into a sorted list
appends `x` to the end of the sublist with `x`'s key and leaves every
other key's sublist unchanged. -/
theorem insertCmp_filter_key (k : α → ℚ) (hcmp : ∀ a b, cmp a b = k b - k a) (r : ℚ)
    (l : List α) (x : α) (hp : l.Pairwise fun a b => cmp a b ≤ 0) :
    (insertCmp cmp l x).filter (fun f => decide (k f = r)) =
      l.filter (fun f => decide (k f = r)) ++ (if k x = r then [x] else []) := by
  induction l with
  | nil =>
    simp only [insertCmp, List.filter_cons, List.filter_nil]
    split <;> simp_all
  | cons y ys ih =>
    rw [List.pairwise_cons] at hp
    obtain ⟨hy, hys⟩ := hp
    by_cases h : cmp y x ≤ 0
    · simp only [insertCmp, if_pos h, List.filter_cons, ih hys]
      split <;> simp
    · simp only [insertCmp, if_neg h]
      by_cases hkx : k x = r
      · have hylt : k y < k x := by
          have := hcmp y x
          nlinarith [not_le.mp h]
        have hnil : (y :: ys).filter (fun f => decide (k f = r)) = [] := by
          rw [List.filter_eq_nil_iff]
          intro z hz
          rcases List.mem_cons.mp hz with hzy | hzys
          · subst hzy; simp only [decide_eq_true_eq]
            intro hzr; rw [hzr] at hylt; exact absurd hkx (by linarith)
          · have hle : cmp y z ≤ 0 := hy z hzys
            have : k z ≤ k y := by nlinarith [hcmp y z]
            simp only [decide_eq_true_eq]
            intro hzr; rw [hzr] at this; rw [hkx] at hylt; linarith
        rw [List.filter_cons, if_pos (by simpa using hkx), hnil, if_pos hkx]
        rfl
      · rw [List.filter_cons, if_neg (by simpa using hkx), if_neg hkx, List.append_nil]

/-- Stability of the comparator sort for a key-difference comparator:
each key's sublist comes out exactly as it went in. -/
theorem sortCmp_filter_key (k : α → ℚ) (hcmp : ∀ a b, cmp a b = k b - k a) (r : ℚ)
    (l : List α) :
    (sortCmp cmp l).filter (fun f => decide (k f = r)) =
      l.filter (fun f => decide (k f = r)) := by
  have htot : ∀ a b : α, True → True → cmp a b ≤ 0 ∨ cmp b a ≤ 0 := by
    intro a b _ _
    rcases le_total (k b) (k a) with hab | hab
    · left; rw [hcmp]; linarith
    · right; rw [hcmp]; linarith
  have htrans : ∀ a b c : α, True → True → True →
      cmp a b ≤ 0 → cmp b c ≤ 0 → cmp a c ≤ 0 := by
    intro a b c _ _ _ h1 h2
    rw [hcmp] at h1 h2 ⊢; linarith
  suffices h : ∀ (l acc : List α), (acc.Pairwise fun a b => cmp a b ≤ 0) →
      (l.foldl (insertCmp cmp) acc).filter (fun f => decide (k f = r)) =
        acc.filter (fun f => decide (k f = r)) ++ l.filter (fun f => decide (k f = r)) by
    simpa using h l [] (by simp)
  intro l
  induction l with
  | nil => intro acc _; simp
  | cons x l ih =>
    intro acc hpacc
    have hpins : (insertCmp cmp acc x).Pairwise fun a b => cmp a b ≤ 0 :=
      insertCmp_pairwise cmp (fun _ => True) htot htrans acc x (fun _ _ => trivial) trivial hpacc
    rw [List.foldl_cons, ih (insertCmp cmp acc x) hpins,
      insertCmp_filter_key cmp k hcmp r acc x hpacc, List.filter_cons]
    split
    · rename_i hpx
      rw [if_pos (by simpa using hpx)]
      simp
    · rename_i hpx
      rw [if_neg (by simpa using hpx)]
      simp

end SortLemmas

/-! ### Lemmas about ranking -/

theorem rankFrom_length : ∀ (i : ℕ) (l : List FundAvg), (rankFrom i l).length = l.length := by
  intro i l
  induction l generalizing i with
  | nil => rfl
  | cons f fs ih => simp [rankFrom, ih]

theorem rankFrom_getElem? :
    ∀ (i : ℕ) (l : List FundAvg) (j : ℕ),
      (rankFrom i l)[j]? = (l[j]?).map fun f =>
        (⟨f.name, f.nominalRate, f.afterTaxReturn, f.realReturn, f.dataPoints, i + j + 1⟩ :
          RankedFund) := by
  intro i l
  induction l generalizing i with
  | nil => intro j; simp [rankFrom]
  | cons f fs ih =>
    intro j
    cases j with
    | zero => simp [rankFrom]
    | succ j =>
      simp only [rankFrom, List.getElem?_cons_succ, ih (i + 1) j]
      have : i + 1 + j + 1 = i + (j + 1) + 1 := by omega
      rw [this]

theorem rankFrom_map_rank :
    ∀ (i : ℕ) (l : List FundAvg),
      (rankFrom i l).map (fun f => f.rank) = List.range' (i + 1) l.length := by
  intro i l
  induction l generalizing i with
  | nil => rfl
  | cons f fs ih => simp [rankFrom, List.range'_succ, ih]

/-! ### Lemmas about the bucket map -/

theorem lookupBucket_append (m m' : MonthsMap) (k : String) :
    lookupBucket (m ++ m') k =
      match lookupBucket m k with
      | some v => some v
      | none => lookupBucket m' k := by
  induction m with
  | nil => simp [lookupBucket]
  | cons p ps ih =>
    by_cases h : p.1 = k
    · simp [lookupBucket, h]
    · simp [lookupBucket, h, ih]

theorem lookupBucket_ensureBucket_self (m : MonthsMap) (k : String) :
    lookupBucket (ensureBucket m k) k = some ((lookupBucket m k).getD MonthData.empty) := by
  unfold ensureBucket
  cases h : lookupBucket m k with
  | some v => simp [h]
  | none => simp [h, lookupBucket_append, lookupBucket]

theorem lookupBucket_ensureBucket_ne (m : MonthsMap) (k k' : String) (hne : k' ≠ k) :
    lookupBucket (ensureBucket m k) k' = lookupBucket m k' := by
  unfold ensureBucket
  split
  · rfl
  · rw [lookupBucket_append]
    cases h : lookupBucket m k' with
    | some v => rfl
    | none =>
      show lookupBucket [(k, MonthData.empty)] k' = none
      rw [lookupBucket, if_neg fun hc => hne hc.symm]
      rfl

theorem lookupBucket_mapUpdate_self (m : MonthsMap) (k : String) (f : MonthData → MonthData) :
    lookupBucket (mapUpdate m k f) k = (lookupBucket m k).map f := by
  induction m with
  | nil => rfl
  | cons p ps ih =>
    by_cases h : p.1 = k
    · simp [mapUpdate, lookupBucket, h]
    · simp only [mapUpdate, List.map_cons, if_neg h]
      rw [lookupBucket, if_neg h]
      rw [lookupBucket, if_neg h]
      exact ih

theorem lookupBucket_mapUpdate_ne (m : MonthsMap) (k k' : String)
    (f : MonthData → MonthData) (hne : k' ≠ k) :
    lookupBucket (mapUpdate m k f) k' = lookupBucket m k' := by
  induction m with
  | nil => rfl
  | cons p ps ih =>
    by_cases h : p.1 = k
    · simp only [mapUpdate, List.map_cons, if_pos h]
      rw [lookupBucket, if_neg (by rw [h]; exact fun hc => hne hc.symm)]
      rw [lookupBucket, if_neg (by rw [h]; exact fun hc => hne hc.symm)]
      exact ih
    · simp only [mapUpdate, List.map_cons, if_neg h]
      by_cases h' : p.1 = k'
      · rw [lookupBucket, if_pos h']
        rw [lookupBucket, if_pos h']
      · rw [lookupBucket, if_neg h']
        rw [lookupBucket, if_neg h']
        exact ih

/-! ### The grouping invariant -/

theorem lookupBucket_processRecord (acc : MonthsMap) (r : DailyRecord) (key : String) :
    lookupBucket (processRecord acc r) key = stepAt key (lookupBucket acc key) r := by
  unfold processRecord stepAt
  cases hm : r.metadata with
  | none => rfl
  | some meta =>
    simp only
    cases hd : meta.date with
    | none => rfl
    | some d =>
      simp only
      by_cases hk : monthYearKey d = key
      · subst hk
        rw [if_pos rfl, lookupBucket_mapUpdate_self, lookupBucket_ensureBucket_self]
        rfl
      · rw [if_neg hk, lookupBucket_mapUpdate_ne _ _ _ _ (fun h => hk h.symm),
          lookupBucket_ensureBucket_ne _ _ _ (fun h => hk h.symm)]

theorem lookupBucket_foldl (key : String) :
    ∀ (rs : List DailyRecord) (acc : MonthsMap),
      lookupBucket (rs.foldl processRecord acc) key = applyAt key rs (lookupBucket acc key) := by
  intro rs
  induction rs with
  | nil => intro acc; rfl
  | cons r rs ih =>
    intro acc
    rw [List.foldl_cons, ih, lookupBucket_processRecord]
    rfl

theorem statistics_foldl_addFundData (fs : List FundSample) :
    ∀ md : MonthData, (fs.foldl MonthData.addFundData md).statistics = md.statistics := by
  induction fs with
  | nil => intro md; rfl
  | cons f fs ih => intro md; rw [List.foldl_cons, ih]; rfl

theorem recordUpdate_stats (funds : Option (List FundSample)) (stats : Option StatTriple)
    (md : MonthData) :
    (recordUpdate funds stats md).statistics =
      match funds, stats with
      | some _, some st => md.statistics.addMetrics st.nominalRate st.afterTaxReturn st.realReturn
      | _, _ => md.statistics := by
  unfold recordUpdate
  cases funds with
  | none => rfl
  | some fs =>
    cases stats with
    | none => exact statistics_foldl_addFundData fs md
    | some st =>
      show (MonthData.addStatistics _ st).statistics = _
      unfold MonthData.addStatistics
      rw [statistics_foldl_addFundData fs md]

theorem applyAt_stats_gen (lp : FundMetrics → List ℚ) (tp : StatTriple → ℚ)
    (hadd : ∀ (fm : FundMetrics) (st : StatTriple),
      lp (fm.addMetrics st.nominalRate st.afterTaxReturn st.realReturn) = lp fm ++ [tp st])
    (key : String) :
    ∀ (rs : List DailyRecord) (o : Option MonthData),
      lp ((applyAt key rs o).getD MonthData.empty).statistics =
        lp (o.getD MonthData.empty).statistics ++ portfolioSamples tp key rs := by
  intro rs
  induction rs with
  | nil => intro o; simp [applyAt, portfolioSamples]
  | cons r rs ih =>
    intro o
    have hstep : lp ((stepAt key o r).getD MonthData.empty).statistics =
        lp (o.getD MonthData.empty).statistics ++
          (match r.metadata with
           | none => []
           | some meta =>
             match meta.date, r.funds, meta.statistics with
             | some d, some _, some st =>
                if monthYearKey d = key then [tp st] else []
             | _, _, _ => []) := by
      unfold stepAt
      cases hm : r.metadata with
      | none => simp
      | some meta =>
        simp only
        cases hd : meta.date with
        | none => simp
        | some d =>
          simp only
          by_cases hk : monthYearKey d = key
          · rw [if_pos hk, Option.getD_some, recordUpdate_stats]
            cases hf : r.funds with
            | none => simp
            | some fs =>
              cases hs : meta.statistics with
              | none => simp
              | some st => simp [hadd, hk]
          · rw [if_neg hk]
            cases hf : r.funds with
            | none => simp
            | some fs =>
              cases hs : meta.statistics with
              | none => simp
              | some st => simp [hk]
    have hsamp : portfolioSamples tp key (r :: rs) =
        (match r.metadata with
         | none => []
         | some meta =>
           match meta.date, r.funds, meta.statistics with
           | some d, some _, some st =>
              if monthYearKey d = key then [tp st] else []
           | _, _, _ => []) ++ portfolioSamples tp key rs := by
      unfold portfolioSamples
      rw [List.filterMap_cons]
      cases hm : r.metadata with
      | none => simp
      | some meta =>
        simp only
        cases hd : meta.date with
        | none => simp
        | some d =>
          cases hf : r.funds with
          | none => simp
          | some fs =>
            cases hs : meta.statistics with
            | none => simp
            | some st =>
              by_cases hk : monthYearKey d = key
              · simp [hk]
              · simp [hk]
    show lp ((applyAt key rs (stepAt key o r)).getD MonthData.empty).statistics = _
    rw [ih (stepAt key o r), hstep, hsamp, List.append_assoc]

/-- The three accumulated portfolio sample lists of any bucket are exactly
the matching records' portfolio triples, in input order. -/
theorem buildMonths_stats (key : String) (input : List DailyRecord) :
    ((lookupBucket (buildMonths input) key).getD MonthData.empty).statistics.nominalRates =
        portfolioSamples StatTriple.nominalRate key input ∧
    ((lookupBucket (buildMonths input) key).getD MonthData.empty).statistics.afterTaxReturns =
        portfolioSamples StatTriple.afterTaxReturn key input ∧
    ((lookupBucket (buildMonths input) key).getD MonthData.empty).statistics.realReturns =
        portfolioSamples StatTriple.realReturn key input := by
  unfold buildMonths
  rw [lookupBucket_foldl]
  refine ⟨?_, ?_, ?_⟩
  · simpa using applyAt_stats_gen (fun fm => fm.nominalRates) StatTriple.nominalRate
      (fun fm st => rfl) key input none
  · simpa using applyAt_stats_gen (fun fm => fm.afterTaxReturns) StatTriple.afterTaxReturn
      (fun fm st => rfl) key input none
  · simpa using applyAt_stats_gen (fun fm => fm.realReturns) StatTriple.realReturn
      (fun fm st => rfl) key input none

/-! ### Bucket keys are unique, so output summaries decompose as buckets -/

theorem mapUpdate_keys (m : MonthsMap) (k : String) (f : MonthData → MonthData) :
    (mapUpdate m k f).map Prod.fst = m.map Prod.fst := by
  induction m with
  | nil => rfl
  | cons p ps ih =>
    by_cases h : p.1 = k
    · simp only [mapUpdate, List.map_cons, if_pos h] at ih ⊢
      rw [ih]
    · simp only [mapUpdate, List.map_cons, if_neg h] at ih ⊢
      rw [ih]

theorem lookupBucket_eq_none_iff (m : MonthsMap) (k : String) :
    lookupBucket m k = none ↔ k ∉ m.map Prod.fst := by
  induction m with
  | nil => simp [lookupBucket]
  | cons p ps ih =>
    by_cases h : p.1 = k
    · rw [lookupBucket, if_pos h]
      simp [h]
    · rw [lookupBucket, if_neg h]
      simp only [List.map_cons, List.mem_cons, ih]
      constructor
      · intro hn hc
        rcases hc with hc | hc
        · exact h hc.symm
        · exact hn hc
      · intro hn
        intro hc
        exact hn (Or.inr hc)

theorem ensureBucket_keys_nodup (m : MonthsMap) (k : String)
    (h : (m.map Prod.fst).Nodup) : ((ensureBucket m k).map Prod.fst).Nodup := by
  unfold ensureBucket
  cases hl : lookupBucket m k with
  | some v => simpa [hl] using h
  | none =>
    have hk : k ∉ m.map Prod.fst := (lookupBucket_eq_none_iff m k).mp hl
    rw [if_neg (by simp), List.map_append, List.nodup_append]
    refine ⟨h, by simp, ?_⟩
    intro a ha hb
    simp only [List.map_cons, List.map_nil, List.mem_singleton] at hb
    subst hb
    exact hk ha

theorem processRecord_keys_nodup (acc : MonthsMap) (r : DailyRecord)
    (h : (acc.map Prod.fst).Nodup) : ((processRecord acc r).map Prod.fst).Nodup := by
  unfold processRecord
  cases r.metadata with
  | none => exact h
  | some meta =>
    simp only
    cases meta.date with
    | none => exact h
    | some d =>
      simp only
      rw [mapUpdate_keys]
      exact ensureBucket_keys_nodup acc (monthYearKey d) h

theorem buildMonths_keys_nodup (input : List DailyRecord) :
    ((buildMonths input).map Prod.fst).Nodup := by
  suffices h : ∀ (rs : List DailyRecord) (acc : MonthsMap), (acc.map Prod.fst).Nodup →
      ((rs.foldl processRecord acc).map Prod.fst).Nodup by
    exact h input [] (by simp)
  intro rs
  induction rs with
  | nil => intro acc hacc; exact hacc
  | cons r rs ih =>
    intro acc hacc
    exact ih (processRecord acc r) (processRecord_keys_nodup acc r hacc)

theorem lookupBucket_of_mem (m : MonthsMap) (p : String × MonthData)
    (hmem : p ∈ m) (hnd : (m.map Prod.fst).Nodup) : lookupBucket m p.1 = some p.2 := by
  induction m with
  | nil => cases hmem
  | cons q ps ih =>
    rw [List.map_cons, List.nodup_cons] at hnd
    rcases List.mem_cons.mp hmem with hpq | hps
    · subst hpq
      rw [lookupBucket, if_pos rfl]
    · have h1 : q.1 ≠ p.1 := by
        intro hc
        exact hnd.1 (hc ▸ List.mem_map_of_mem Prod.fst hps)
      rw [lookupBucket, if_neg h1]
      exact ih hps hnd.2

/-- Every output month summary is the reduction of a bucket of the
grouping map. -/
theorem mem_processMonthlyData {input : List DailyRecord} {m : MonthSummary}
    (hm : m ∈ processMonthlyData input) :
    ∃ p, p ∈ buildMonths input ∧ m = monthFromBucket p.1 p.2 := by
  have hmem := (mem_sortCmp monthCmp).mp hm
  rcases List.mem_map.mp hmem with ⟨p, hp, heq⟩
  exact ⟨p, hp, heq.symm⟩

/-- A record whose `metadata` is present but whose date access throws is
caught, logged and skipped: folding with it removed gives the same
bucket map. -/
theorem buildMonths_skip (pre post : List DailyRecord) (r : DailyRecord)
    (meta : Metadata) (hm : r.metadata = some meta) (hd : meta.date = none) :
    buildMonths (pre ++ r :: post) = buildMonths (pre ++ post) := by
  unfold buildMonths
  rw [List.foldl_append, List.foldl_append, List.foldl_cons]
  have hskip : processRecord (pre.foldl processRecord []) r = pre.foldl processRecord [] := by
    unfold processRecord
    simp only [hm, hd]
  rw [hskip]

/-! ### String lemmas: split fragments, uppercasing, key injectivity -/

theorem string_append_data (a b : String) : (a ++ b).data = a.data ++ b.data := by
  cases a
  cases b
  rfl

theorem string_data_inj {a b : String} (h : a.data = b.data) : a = b := by
  cases a
  cases b
  exact congrArg String.mk h

theorem splitAux_no_blank :
    ∀ (l acc : List Char), (∀ c ∈ acc, c ≠ ' ') →
      ∀ t ∈ splitAux l acc, ∀ c ∈ t, c ≠ ' ' := by
  intro l
  induction l with
  | nil =>
    intro acc hacc t ht c hc
    simp only [splitAux, List.mem_singleton] at ht
    subst ht
    exact hacc c (by simpa using hc)
  | cons x xs ih =>
    intro acc hacc t ht c hc
    by_cases hx : x = ' '
    · simp only [splitAux, if_pos hx, List.mem_cons] at ht
      rcases ht with ht | ht
      · subst ht
        exact hacc c (by simpa using hc)
      · exact ih [] (by simp) t ht c hc
    · simp only [splitAux, if_neg hx] at ht
      refine ih (x :: acc) ?_ t ht c hc
      intro c' hc'
      rcases List.mem_cons.mp hc' with hcx | hca
      · exact hcx ▸ hx
      · exact hacc c' hca

theorem jsSplit_no_blank (s t : String) (ht : t ∈ jsSplit s) : ∀ c ∈ t.data, c ≠ ' ' := by
  unfold jsSplit at ht
  rcases List.mem_map.mp ht with ⟨l, hl, hlt⟩
  subst hlt
  exact splitAux_no_blank s.data [] (by simp) l hl

theorem splitAux_all_no_blank (b : List Char) (hb : ∀ c ∈ b, c ≠ ' ') :
    ∀ acc, splitAux b acc = [acc.reverse ++ b] := by
  induction b with
  | nil => intro acc; simp [splitAux]
  | cons x xs ih =>
    intro acc
    have hx : x ≠ ' ' := hb x (List.mem_cons_self x xs)
    rw [splitAux, if_neg hx, ih (fun c hc => hb c (List.mem_cons_of_mem x hc))]
    simp

theorem splitAux_blank_split (a : List Char) (ha : ∀ c ∈ a, c ≠ ' ') (b : List Char) :
    ∀ acc, splitAux (a ++ ' ' :: b) acc = (acc.reverse ++ a) :: splitAux b [] := by
  induction a with
  | nil => intro acc; simp [splitAux]
  | cons x xs ih =>
    intro acc
    have hx : x ≠ ' ' := ha x (List.mem_cons_self x xs)
    rw [List.cons_append, splitAux, if_neg hx,
      ih (fun c hc => ha c (List.mem_cons_of_mem x hc))]
    simp

theorem jsSplit_two (a y : String) (ha : ∀ c ∈ a.data, c ≠ ' ') (hy : ∀ c ∈ y.data, c ≠ ' ') :
    jsSplit (a ++ " " ++ y) = [a, y] := by
  unfold jsSplit
  have hdata : (a ++ " " ++ y).data = a.data ++ ' ' :: y.data := by
    rw [string_append_data, string_append_data, List.append_assoc]
    rfl
  rw [hdata, splitAux_blank_split a.data ha y.data [], splitAux_all_no_blank y.data hy []]
  simp only [List.reverse_nil, List.nil_append, List.map_cons, List.map_nil]

theorem append_blank_inj :
    ∀ (a : List Char) (b : List Char) (c : List Char) (d : List Char),
      (∀ ch ∈ a, ch ≠ ' ') → (∀ ch ∈ c, ch ≠ ' ') →
      a ++ ' ' :: b = c ++ ' ' :: d → a = c ∧ b = d := by
  intro a
  induction a with
  | nil =>
    intro b c d _ hc h
    cases c with
    | nil => simpa using h
    | cons x cs =>
      simp only [List.nil_append, List.cons_append, List.cons.injEq] at h
      exact absurd h.1.symm (hc x (List.mem_cons_self x cs))
  | cons y ys ih =>
    intro b c d ha hc h
    cases c with
    | nil =>
      simp only [List.cons_append, List.nil_append, List.cons.injEq] at h
      exact absurd h.1 (ha y (List.mem_cons_self y ys))
    | cons x cs =>
      simp only [List.cons_append, List.cons.injEq] at h
      obtain ⟨hyx, htail⟩ := h
      obtain ⟨h1, h2⟩ := ih b cs d (fun ch hch => ha ch (List.mem_cons_of_mem y hch))
        (fun ch hch => hc ch (List.mem_cons_of_mem x hch)) htail
      exact ⟨by rw [hyx, h1], h2⟩

theorem upChar_blank_eq (c : Char) (hc : c ≠ ' ') : upChar c ≠ ' ' := by
  intro heq
  unfold upChar at heq
  by_cases h : 97 ≤ c.toNat ∧ c.toNat ≤ 122
  · rw [if_pos h] at heq
    obtain ⟨h1, h2⟩ := h
    obtain ⟨n, hn⟩ : ∃ n, c.toNat = n := ⟨c.toNat, rfl⟩
    rw [hn] at h1 h2 heq
    interval_cases n <;> exact absurd heq (by decide)
  · rw [if_neg h] at heq
    exact hc heq

theorem jsToUpper_no_blank (s : String) (hs : ∀ c ∈ s.data, c ≠ ' ') :
    ∀ c ∈ (jsToUpper s).data, c ≠ ' ' := by
  intro c hc
  unfold jsToUpper at hc
  simp only at hc
  rcases List.mem_map.mp hc with ⟨c', hc', hcc⟩
  exact hcc ▸ upChar_blank_eq c' (hs c' hc')

theorem jsToUpper_append (a b : String) :
    jsToUpper (a ++ b) = jsToUpper a ++ jsToUpper b := by
  apply string_data_inj
  unfold jsToUpper
  rw [string_append_data]
  show (a.data ++ b.data).map upChar = ((⟨a.data.map upChar⟩ : String) ++ ⟨b.data.map upChar⟩).data
  rw [string_append_data, List.map_append]

theorem indexOfAux_not_mem (l : List String) (s : String) (hs : s ∉ l) :
    ∀ i, indexOfAux l s i = -1 := by
  induction l with
  | nil => intro i; rfl
  | cons x xs ih =>
    intro i
    rw [indexOfAux, if_neg (fun h => hs (by rw [← h]; exact List.mem_cons_self x xs))]
    exact ih (fun h => hs (List.mem_cons_of_mem x h)) (i + 1)

theorem indexOfAux_ge (l : List String) (s : String) (hs : s ∈ l) :
    ∀ i, i ≤ indexOfAux l s i := by
  induction l with
  | nil => cases hs
  | cons x xs ih =>
    intro i
    by_cases h : x = s
    · rw [indexOfAux, if_pos h]
    · rw [indexOfAux, if_neg h]
      have hxs : s ∈ xs := by
        rcases List.mem_cons.mp hs with hx | hx
        · exact absurd hx.symm h
        · exact hx
      linarith [ih hxs (i + 1)]

theorem monthTable_no_blank (s : String) (hs : s ∈ monthTable) : ∀ c ∈ s.data, c ≠ ' ' := by
  fin_cases hs <;> decide

theorem token_no_blank (d : String) (i : ℕ) :
    ∀ c ∈ (((jsSplit d)[i]?).getD "undefined").data, c ≠ ' ' := by
  cases h : (jsSplit d)[i]? with
  | none => decide
  | some t => exact jsSplit_no_blank d t (List.getElem?_mem h)

/-- The uppercased-both-tokens MonthKey is exactly what the bucket key
string encodes: two dates produce the same bucket key iff their
(uppercased month, uppercased year) pairs agree. -/
theorem monthYearKey_eq_iff (d1 d2 : String) :
    monthYearKey d1 = monthYearKey d2 ↔ specKeyUpper d1 = specKeyUpper d2 := by
  unfold monthYearKey specKeyUpper
  simp only [Prod.mk.injEq]
  have hup : jsToUpper " " = " " := by decide
  rw [jsToUpper_append, jsToUpper_append, jsToUpper_append, jsToUpper_append, hup]
  constructor
  · intro h
    have hd := congrArg String.data h
    rw [string_append_data, string_append_data, string_append_data, string_append_data,
      List.append_assoc, List.append_assoc] at hd
    have hm1 := jsToUpper_no_blank _ (token_no_blank d1 1)
    have hm2 := jsToUpper_no_blank _ (token_no_blank d2 1)
    obtain ⟨h1, h2⟩ := append_blank_inj _ _ _ _ hm1 hm2 (by simpa using hd)
    exact ⟨string_data_inj h1, string_data_inj (by simpa using h2)⟩
  · intro h
    rw [h.1, h.2]


/-! ### Correctness of the integer square-root arithmetic

`round2sqrt` was introduced to keep `stdDev` kernel-computable; the
theorems below certify that it does compute `+Math.sqrt(v).toFixed(2)`:
for `v ≥ 0`, `round2sqrt v` equals `⌊√v · 100 + 1/2⌋ / 100`, the 2-dp
rounding (ties up) of the real square root — the same rounding shape as
`round2`. -/

theorem isqrtGo_spec (n : ℕ) :
    ∀ (fuel lo hi : ℕ), lo < hi → lo * lo ≤ n → n < hi * hi → hi ≤ lo + fuel →
      isqrtGo n fuel lo hi * isqrtGo n fuel lo hi ≤ n ∧
        n < (isqrtGo n fuel lo hi + 1) * (isqrtGo n fuel lo hi + 1) := by
  intro fuel
  induction fuel with
  | zero => intro lo hi h1 _ _ h4; exact absurd h4 (by omega)
  | succ fuel ih =>
    intro lo hi h1 h2 h3 h4
    simp only [isqrtGo]
    by_cases hml : (lo + hi) / 2 = lo
    · rw [if_pos hml]
      have hhi : hi = lo + 1 := by omega
      subst hhi
      exact ⟨h2, h3⟩
    · rw [if_neg hml]
      have hlt : (lo + hi) / 2 < hi := by omega
      have hgt : lo < (lo + hi) / 2 := by omega
      by_cases hsq : (lo + hi) / 2 * ((lo + hi) / 2) ≤ n
      · rw [if_pos hsq]
        exact ih ((lo + hi) / 2) hi hlt hsq h3 (by omega)
      · rw [if_neg hsq]
        exact ih lo ((lo + hi) / 2) hgt h2 (Nat.lt_of_not_le hsq) (by omega)

theorem isqrt_spec (n : ℕ) :
    isqrt n * isqrt n ≤ n ∧ n < (isqrt n + 1) * (isqrt n + 1) := by
  unfold isqrt
  refine isqrtGo_spec n (n + 1) 0 (n + 1) (by omega) (by omega) ?_ (by omega)
  nlinarith

theorem ratFloor_eq (x : ℚ) : ratFloor x = ⌊x⌋ := by
  unfold ratFloor
  rw [Int.fdiv_eq_ediv x.num (Int.natCast_nonneg x.den)]
  exact Rat.floor_def.symm

theorem ratSqrtFloor_spec (x : ℚ) (hx : 0 ≤ x) :
    ((ratSqrtFloor x : ℚ) * ratSqrtFloor x ≤ x) ∧
      x < ((ratSqrtFloor x : ℚ) + 1) * ((ratSqrtFloor x : ℚ) + 1) := by
  unfold ratSqrtFloor
  obtain ⟨h1, h2⟩ := isqrt_spec (ratFloor x).toNat
  have hfl : ((ratFloor x : ℤ) : ℚ) ≤ x := by
    rw [ratFloor_eq]
    exact_mod_cast Int.floor_le x
  have hfl2 : x < ((ratFloor x : ℤ) : ℚ) + 1 := by
    rw [ratFloor_eq]
    exact_mod_cast Int.lt_floor_add_one x
  have hNge : (0 : ℤ) ≤ ratFloor x := by
    rw [ratFloor_eq]
    exact Int.floor_nonneg.mpr hx
  have hNeq : (((ratFloor x).toNat : ℤ) : ℚ) = ((ratFloor x : ℤ) : ℚ) := by
    exact_mod_cast congrArg (fun z : ℤ => (z : ℚ)) (Int.toNat_of_nonneg hNge)
  constructor
  · have hq : ((isqrt (ratFloor x).toNat : ℚ) * isqrt (ratFloor x).toNat) ≤
        (((ratFloor x).toNat : ℕ) : ℚ) := by exact_mod_cast h1
    calc ((isqrt (ratFloor x).toNat : ℚ) * isqrt (ratFloor x).toNat) ≤
          (((ratFloor x).toNat : ℕ) : ℚ) := hq
      _ = ((ratFloor x : ℤ) : ℚ) := by exact_mod_cast hNeq
      _ ≤ x := hfl
  · have hq : (((ratFloor x).toNat : ℚ) + 1) ≤
        ((isqrt (ratFloor x).toNat : ℚ) + 1) * ((isqrt (ratFloor x).toNat : ℚ) + 1) := by
      exact_mod_cast Nat.succ_le_of_lt h2
    calc x < ((ratFloor x : ℤ) : ℚ) + 1 := hfl2
      _ = (((ratFloor x).toNat : ℕ) : ℚ) + 1 := by rw [← hNeq]; norm_cast
      _ ≤ _ := hq

theorem ratSqrtFloor_real (x : ℚ) (hx : 0 ≤ x) :
    ((ratSqrtFloor x : ℕ) : ℝ) ≤ Real.sqrt ((x : ℝ)) ∧
      Real.sqrt ((x : ℝ)) < ((ratSqrtFloor x : ℕ) : ℝ) + 1 := by
  obtain ⟨h1, h2⟩ := ratSqrtFloor_spec x hx
  have hm1 : ((ratSqrtFloor x : ℕ) : ℝ) * ((ratSqrtFloor x : ℕ) : ℝ) ≤ ((x : ℚ) : ℝ) := by
    exact_mod_cast h1
  have hm2 : ((x : ℚ) : ℝ) < (((ratSqrtFloor x : ℕ) : ℝ) + 1) * (((ratSqrtFloor x : ℕ) : ℝ) + 1) := by
    exact_mod_cast h2
  constructor
  · calc ((ratSqrtFloor x : ℕ) : ℝ) = Real.sqrt (((ratSqrtFloor x : ℕ) : ℝ) ^ 2) :=
        (Real.sqrt_sq (by positivity)).symm
      _ ≤ Real.sqrt ((x : ℚ) : ℝ) := Real.sqrt_le_sqrt (by nlinarith)
  · have hstep : Real.sqrt ((x : ℚ) : ℝ) < Real.sqrt ((((ratSqrtFloor x : ℕ) : ℝ) + 1) ^ 2) := by
      refine Real.sqrt_lt_sqrt (by exact_mod_cast hx) ?_
      nlinarith
    have hsq2 : Real.sqrt ((((ratSqrtFloor x : ℕ) : ℝ) + 1) ^ 2) =
        ((ratSqrtFloor x : ℕ) : ℝ) + 1 := Real.sqrt_sq (by positivity)
    rw [hsq2] at hstep
    exact hstep

theorem roundSqrt_eq (x : ℚ) (hx : 0 ≤ x) :
    ((roundSqrt x : ℕ) : ℤ) = ⌊Real.sqrt ((x : ℝ)) + 1/2⌋ := by
  obtain ⟨hle, hlt⟩ := ratSqrtFloor_real x hx
  unfold roundSqrt
  simp only
  by_cases hc : x * 4 < (((2 * ratSqrtFloor x + 1) ^ 2 : ℕ) : ℚ)
  · rw [if_pos hc]
    have hcr : ((x : ℚ) : ℝ) * 4 < (((2 * ratSqrtFloor x + 1) ^ 2 : ℕ) : ℝ) := by
      exact_mod_cast hc
    have hsq : Real.sqrt ((x : ℝ)) < ((ratSqrtFloor x : ℕ) : ℝ) + 1/2 := by
      rw [Real.sqrt_lt' (by positivity)]
      push_cast at hcr ⊢
      nlinarith
    symm
    rw [Int.floor_eq_iff]
    constructor
    · push_cast
      linarith
    · push_cast
      linarith
  · rw [if_neg hc]
    have hcr : (((2 * ratSqrtFloor x + 1) ^ 2 : ℕ) : ℝ) ≤ ((x : ℚ) : ℝ) * 4 := by
      exact_mod_cast not_lt.mp hc
    have hsq : ((ratSqrtFloor x : ℕ) : ℝ) + 1/2 ≤ Real.sqrt ((x : ℝ)) := by
      rw [Real.le_sqrt (by positivity) (by exact_mod_cast hx)]
      push_cast at hcr ⊢
      nlinarith
    symm
    rw [Int.floor_eq_iff]
    constructor
    · push_cast
      linarith
    · push_cast
      linarith

theorem round2sqrt_correct (v : ℚ) (hv : 0 ≤ v) :
    ((round2sqrt v : ℚ) : ℝ) = ((⌊Real.sqrt ((v : ℝ)) * 100 + 1/2⌋ : ℤ) : ℝ) / 100 := by
  unfold round2sqrt
  have h10 : (0 : ℚ) ≤ v * 10000 := by positivity
  have h1 := roundSqrt_eq (v * 10000) h10
  have h2 : Real.sqrt (((v * 10000 : ℚ) : ℝ)) = Real.sqrt ((v : ℝ)) * 100 := by
    push_cast
    rw [show (10000 : ℝ) = 100 ^ 2 by norm_num,
      Real.sqrt_mul (by exact_mod_cast hv) ((100 : ℝ) ^ 2),
      Real.sqrt_sq (by norm_num : (0 : ℝ) ≤ 100)]
  rw [h2] at h1
  push_cast
  rw [show ((roundSqrt (v * 10000) : ℕ) : ℝ) = ((⌊Real.sqrt ((v : ℝ)) * 100 + 1/2⌋ : ℤ) : ℝ) by
    exact_mod_cast h1]

/-! ### Claim verification -/

section ClaimVerification

attribute [local semireducible] Rat.add Rat.mul Rat.inv Rat.sub Rat.ofScientific

theorem foldl_add_shift (l : List ℚ) : ∀ a b : ℚ, l.foldl (· + ·) (a + b) = a + l.foldl (· + ·) b := by
  induction l with
  | nil => intro a b; rfl
  | cons x xs ih =>
    intro a b
    simp only [List.foldl_cons]
    rw [add_assoc, ih]

theorem foldl_add_map (f : ℚ → ℚ) (l : List ℚ) :
    ∀ a : ℚ, l.foldl (fun acc v => acc + f v) a = a + (l.map f).foldl (· + ·) 0 := by
  induction l with
  | nil => intro a; simp
  | cons x xs ih =>
    intro a
    simp only [List.foldl_cons, List.map_cons]
    rw [ih (a + f x)]
    have : (0 : ℚ) + f x = f x + 0 := by ring
    rw [this, foldl_add_shift]
    ring

theorem round2sqrt_zero : round2sqrt 0 = 0 := by decide

theorem rankFrom_filter_names (r : ℚ) :
    ∀ (i : ℕ) (l : List FundAvg),
      ((rankFrom i l).filter (fun f => decide (f.nominalRate = r))).map (fun f => f.name) =
        (l.filter (fun f => decide (f.nominalRate = r))).map (fun f => f.name) := by
  intro i l
  induction l generalizing i with
  | nil => rfl
  | cons f fs ih =>
    simp only [rankFrom, List.filter_cons]
    by_cases h : f.nominalRate = r
    · simp [h, ih]
    · simp [h, ih]

/-- C7: the statistics functions are total on the empty sequence and
return the defined value 0 (`average([]) = 0`, `median([]) = 0`,
`stdDev([]) = 0`) instead of failing. -/
theorem claim_C7_empty_stats :
    statistics.average [] = 0 ∧ statistics.median [] = 0 ∧ statistics.stdDev [] = 0 := by
  refine ⟨rfl, rfl, rfl⟩

/-- C1 counterexample: the claimed per-record skip is false in two ways.
(a) A daily record whose date is the empty string is NOT excluded —
`"".split(" ")` destructures to `undefined` month/year without throwing,
so the record lands in a bucket keyed `"UNDEFINED UNDEFINED"` that
carries its fund data. (b) A record whose `metadata` itself is missing
is NOT caught: the catch block's log template reads
`dayData.metadata.date` again, so the catch re-throws and the whole run
aborts with no output at all instead of skipping the record. -/
theorem claim_C1_counterexample :
    (processMonthlyData [exRecEmptyDate]).map
        (fun m => (m.month, m.funds.map fun f => f.name)) =
      [("UNDEFINED UNDEFINED", ["Fund A"])] ∧
    processMonthlyDataE [exRecFeb, DailyRecord.mk none none] = none := by
  exact ⟨by decide, rfl⟩

/-- C1 amended: the error handling is two-tier. (1) The run produces
output iff no record lacks `metadata` entirely — a missing `metadata`
makes the catch block itself re-throw (its log template reads
`dayData.metadata.date`), aborting the whole run. (2) A record whose
`metadata` is present but whose `date` access throws IS caught and
skipped whole, and processing continues with the remaining records.
(3) But a record dated `""` parses and is bucketed under
`"UNDEFINED UNDEFINED"`, and a record that throws after its month key
was derived (e.g. missing `funds`) still leaves its already-created
(empty) bucket in the output. -/
theorem claim_C1_amended :
    (∀ input : List DailyRecord,
      processMonthlyDataE input = none ↔ ∃ r ∈ input, r.metadata = none) ∧
    (∀ (pre post : List DailyRecord) (r : DailyRecord) (meta : Metadata),
      r.metadata = some meta → meta.date = none →
      processMonthlyDataE (pre ++ r :: post) = processMonthlyDataE (pre ++ post)) ∧
    (processMonthlyDataE [exRecEmptyDate, exRecNoFunds, exRecFeb]).map
        (List.map fun m => (m.month, m.funds.map (fun f => f.name), m.totalFunds)) =
      some [("UNDEFINED UNDEFINED", ["Fund A"], 1), ("JANUARY 2024", [], 0),
        ("FEBRUARY 2024", ["Fund B"], 1)] := by
  refine ⟨?_, ?_, by decide⟩
  · intro input
    simp only [processMonthlyDataE, ite_eq_right_iff, List.all_eq_true]
    constructor
    · intro h
      have hne : ¬ ∀ r ∈ input, r.metadata.isSome = true := fun hall => by
        simpa using h hall
      push_neg at hne
      obtain ⟨r, hr, hrne⟩ := hne
      refine ⟨r, hr, ?_⟩
      cases hmd : r.metadata with
      | none => rfl
      | some m => exact absurd (by rw [hmd]; rfl) hrne
    · rintro ⟨r, hr, hnone⟩ hall
      have hs := hall r hr
      rw [hnone] at hs
      simp at hs
  · intro pre post r meta hm hd
    have hp : r.metadata.isSome = true := by rw [hm]; rfl
    have hv : processMonthlyData (pre ++ r :: post) = processMonthlyData (pre ++ post) := by
      unfold processMonthlyData
      rw [buildMonths_skip pre post r meta hm hd]
    unfold processMonthlyDataE
    have hall : ((pre ++ r :: post).all fun q => q.metadata.isSome) =
        ((pre ++ post).all fun q => q.metadata.isSome) := by
      simp [List.all_append, hp]
    rw [hall, hv]

/-- C1 witness: the fatal path applied to a concrete input containing a
record with no `metadata` (the run yields no output), and the caught-skip
path applied to a concrete record whose `metadata` exists but whose
`date` is missing. -/
theorem claim_C1_witness :
    processMonthlyDataE [exRecFeb, DailyRecord.mk none none] = none ∧
    ((DailyRecord.mk (some (Metadata.mk none none)) none).metadata =
        some (Metadata.mk none none) ∧
      (Metadata.mk none none).date = none ∧
      processMonthlyDataE ([exRecFeb] ++ DailyRecord.mk (some (Metadata.mk none none)) none :: []) =
        processMonthlyDataE ([exRecFeb] ++ [])) :=
  ⟨(claim_C1_amended.1 [exRecFeb, DailyRecord.mk none none]).mpr
      ⟨DailyRecord.mk none none, by simp, rfl⟩,
   rfl, rfl,
   claim_C1_amended.2.1 [exRecFeb] [] (DailyRecord.mk (some (Metadata.mk none none)) none)
     (Metadata.mk none none) rfl rfl⟩

/-- C3 counterexample: `stdDev` does not work on unrounded intermediate
quantities — `average` rounds the mean before the deviations are formed.
On `[0, 0.01, 0.01]` the code reports 0.01 while the spec's formula
(unrounded mean, rounding only at the end) reports 0. -/
theorem claim_C3_counterexample :
    statistics.stdDev [0, 1/100, 1/100] = 1/100 ∧
      stdDevSpec [0, 1/100, 1/100] = 0 ∧ (1/100 : ℚ) ≠ 0 := by
  refine ⟨by decide, by decide, by decide⟩

/-- C3 amended: `stdDev` is the population standard deviation (squared
deviations divided by `n`) of the deviations from the ROUNDED mean
(`statistics.average` itself rounds to 2 dp), with the result rounded to
2 dp; a single-element sequence yields 0 whenever its element is already
an exact 2-decimal value (but not for every rational). -/
theorem claim_C3_amended :
    (∀ arr : List ℚ, arr ≠ [] →
      statistics.stdDev arr =
        round2sqrt (((arr.map fun v => (v - statistics.average arr) ^ 2).foldl (· + ·) 0) /
          (arr.length : ℚ))) ∧
    (∀ x : ℚ, round2 x = x → statistics.stdDev [x] = 0) ∧
    statistics.stdDev [0, 1/100, 1/100] = 1/100 := by
  refine ⟨?_, ?_, by decide⟩
  · intro arr harr
    simp only [statistics.stdDev]
    rw [if_neg (by simpa using harr)]
    rw [foldl_add_map (fun v => (v - statistics.average arr) ^ 2) arr 0, zero_add]
  · intro x hx
    have havg : statistics.average [x] = x := by
      simp only [statistics.average]
      rw [if_neg (by simp)]
      simpa using hx
    simp only [statistics.stdDev]
    rw [if_neg (by simp)]
    rw [havg]
    simpa using round2sqrt_zero

/-- C3 witness: the amended statements applied at concrete inputs (`[0, 1]`
for the rounded-mean formula, `1/2` — an exact 2-decimal value — for the
single-element case). -/
theorem claim_C3_witness :
    (([(0 : ℚ), 1] : List ℚ) ≠ [] ∧
      statistics.stdDev [0, 1] =
        round2sqrt ((([(0 : ℚ), 1].map fun v => (v - statistics.average [0, 1]) ^ 2).foldl
          (· + ·) 0) / (([(0 : ℚ), 1] : List ℚ).length : ℚ))) ∧
    (round2 (1/2 : ℚ) = 1/2 ∧ statistics.stdDev [1/2] = 0) :=
  ⟨⟨by decide, claim_C3_amended.1 [0, 1] (by decide)⟩,
   ⟨by decide, claim_C3_amended.2.1 (1/2) (by decide)⟩⟩

/-- C5 counterexample: the claim's MonthKey (uppercased month token, RAW
year token) does not characterise bucket identity — two dates whose year
tokens differ only in letter case have different claimed MonthKeys yet
land in one bucket, because the code uppercases the whole
`"month year"` string. -/
theorem claim_C5_counterexample :
    specKeyRaw "01 Jan 2024x" ≠ specKeyRaw "01 Jan 2024X" ∧
      monthYearKey "01 Jan 2024x" = monthYearKey "01 Jan 2024X" ∧
      (processMonthlyData [exC5a, exC5b]).map (fun m => m.month) = ["JAN 2024X"] := by
  refine ⟨by decide, by decide, by decide⟩

/-- C5 amended: two parseable records share a month bucket iff their
(uppercased month token, uppercased year token) pairs are equal — the
bucket key uppercases the year token too; the spec's own example still
holds: "01 January 2024" and "15 JANUARY 2024" share the single bucket
"JANUARY 2024". -/
theorem claim_C5_amended :
    (∀ d1 d2 : String, monthYearKey d1 = monthYearKey d2 ↔ specKeyUpper d1 = specKeyUpper d2) ∧
      (processMonthlyData [exC5jan1, exC5jan2]).map (fun m => m.month) = ["JANUARY 2024"] :=
  ⟨monthYearKey_eq_iff, by decide⟩

/-- C8: in every produced MonthSummary with at least one fund, the top
performer is the rank-1 entry and the bottom performer is the entry whose
rank equals `totalFunds`; with exactly one fund both coincide. On the
spec's example (A at 5, B at 7), B is top with rank 1 and A is bottom
with rank 2. -/
theorem claim_C8_top_bottom :
    (∀ (input : List DailyRecord) (m : MonthSummary), m ∈ processMonthlyData input →
      1 ≤ m.totalFunds →
      (∃ t, m.topPerformer = some t ∧ t ∈ m.funds ∧ t.rank = 1) ∧
      (∃ b, m.bottomPerformer = some b ∧ b ∈ m.funds ∧ b.rank = m.totalFunds) ∧
      (m.totalFunds = 1 → m.topPerformer = m.bottomPerformer)) ∧
    (processMonthlyData exC8).map
        (fun m => (m.topPerformer.map fun f => (f.name, f.rank),
          m.bottomPerformer.map fun f => (f.name, f.rank))) =
      [(some ("B", 1), some ("A", 2))] := by
  constructor
  · intro input m hm hn
    obtain ⟨p, hp, hme⟩ := mem_processMonthlyData hm
    subst hme
    simp only [monthFromBucket] at hn ⊢
    set l := sortCmp fundCmp (p.2.fundsData.map toFundAvg) with hldef
    have hlen : (rankFrom 0 l).length = l.length := rankFrom_length 0 l
    have h0 : 0 < l.length := by omega
    have hget0 : l[0]? = some (l.get ⟨0, h0⟩) := by
      rw [List.getElem?_eq_getElem h0]
      rfl
    have hgetlast : l[l.length - 1]? = some (l.get ⟨l.length - 1, by omega⟩) := by
      rw [List.getElem?_eq_getElem (by omega : l.length - 1 < l.length)]
      rfl
    have htop : (rankFrom 0 l).head? = some
        ⟨(l.get ⟨0, h0⟩).name, (l.get ⟨0, h0⟩).nominalRate, (l.get ⟨0, h0⟩).afterTaxReturn,
          (l.get ⟨0, h0⟩).realReturn, (l.get ⟨0, h0⟩).dataPoints, 0 + 0 + 1⟩ := by
      rw [List.head?_eq_getElem?, rankFrom_getElem? 0 l 0, hget0]
      rfl
    have hlast : l.length - 1 < l.length := by omega
    have hbot : (rankFrom 0 l).getLast? = some
        ⟨(l.get ⟨l.length - 1, hlast⟩).name, (l.get ⟨l.length - 1, hlast⟩).nominalRate,
          (l.get ⟨l.length - 1, hlast⟩).afterTaxReturn,
          (l.get ⟨l.length - 1, hlast⟩).realReturn,
          (l.get ⟨l.length - 1, hlast⟩).dataPoints, 0 + (l.length - 1) + 1⟩ := by
      rw [List.getLast?_eq_getElem?, hlen, rankFrom_getElem? 0 l (l.length - 1), hgetlast]
      rfl
    have htmem := List.mem_of_mem_head? (Option.mem_def.mpr htop)
    have hbmem : (⟨(l.get ⟨l.length - 1, hlast⟩).name, (l.get ⟨l.length - 1, hlast⟩).nominalRate,
        (l.get ⟨l.length - 1, hlast⟩).afterTaxReturn, (l.get ⟨l.length - 1, hlast⟩).realReturn,
        (l.get ⟨l.length - 1, hlast⟩).dataPoints, 0 + (l.length - 1) + 1⟩ : RankedFund) ∈
          rankFrom 0 l := by
      have hb2 := hbot
      rw [List.getLast?_eq_getElem?] at hb2
      exact List.getElem?_mem hb2
    refine ⟨⟨_, htop, htmem, rfl⟩, ⟨_, hbot, hbmem, ?_⟩, ?_⟩
    · show 0 + (l.length - 1) + 1 = (rankFrom 0 l).length
      omega
    · intro h1
      rw [List.head?_eq_getElem?, List.getLast?_eq_getElem?, hlen]
      have : l.length = 1 := by omega
      rw [this]
  · decide

/-- C8 witness: the general statement applied to the spec's concrete
A(5)/B(7) example month. -/
theorem claim_C8_witness :
    exC8month ∈ processMonthlyData exC8 ∧ 1 ≤ exC8month.totalFunds ∧
      ((∃ t, exC8month.topPerformer = some t ∧ t ∈ exC8month.funds ∧ t.rank = 1) ∧
        (∃ b, exC8month.bottomPerformer = some b ∧ b ∈ exC8month.funds ∧
          b.rank = exC8month.totalFunds) ∧
        (exC8month.totalFunds = 1 → exC8month.topPerformer = exC8month.bottomPerformer)) :=
  ⟨by decide, by decide, claim_C8_top_bottom.1 exC8 exC8month (by decide) (by decide)⟩

/-- C10: a month whose funds list is empty is still produced without
failure: its `totalFunds` is 0 and both performers are the empty object
(spreading `funds[0] = undefined` gives `{}`, modelled as `none`). -/
theorem claim_C10_empty_month :
    ∀ (input : List DailyRecord) (m : MonthSummary), m ∈ processMonthlyData input →
      m.funds = [] →
      m.totalFunds = 0 ∧ m.topPerformer = none ∧ m.bottomPerformer = none := by
  intro input m hm hf
  obtain ⟨p, hp, hme⟩ := mem_processMonthlyData hm
  subst hme
  simp only [monthFromBucket] at hf ⊢
  rw [hf]
  simp

/-- C10 witness: a January day that parses but carries zero funds yields
the empty-performer summary. -/
theorem claim_C10_witness :
    exC10month ∈ processMonthlyData exC10 ∧ exC10month.funds = [] ∧
      (exC10month.totalFunds = 0 ∧ exC10month.topPerformer = none ∧
        exC10month.bottomPerformer = none) :=
  ⟨by decide, by decide, claim_C10_empty_month exC10 exC10month (by decide) (by decide)⟩

/-- C9: each month's portfolio-level average statistics are the `average`
of the daily records' own (already cross-fund-averaged) portfolio
triples — one appended sample per fully processed record — and this
mean-of-means differs in general from averaging the individual per-fund
samples (concretely: 3.5 versus 3 on `exC9`). -/
theorem claim_C9_mean_of_means :
    (∀ (input : List DailyRecord) (m : MonthSummary), m ∈ processMonthlyData input →
      m.average.nominalRate =
          statistics.average (portfolioSamples StatTriple.nominalRate m.month input) ∧
      m.average.afterTaxReturn =
          statistics.average (portfolioSamples StatTriple.afterTaxReturn m.month input) ∧
      m.average.realReturn =
          statistics.average (portfolioSamples StatTriple.realReturn m.month input)) ∧
    ((processMonthlyData exC9).map (fun m => m.average.nominalRate) = [7/2] ∧
      statistics.average [1, 3, 5] = 3 ∧ (7/2 : ℚ) ≠ 3) := by
  constructor
  · intro input m hm
    obtain ⟨p, hp, hme⟩ := mem_processMonthlyData hm
    subst hme
    have hnd := buildMonths_keys_nodup input
    have hlk : lookupBucket (buildMonths input) p.1 = some p.2 :=
      lookupBucket_of_mem _ p hp hnd
    obtain ⟨h1, h2, h3⟩ := buildMonths_stats p.1 input
    rw [hlk] at h1 h2 h3
    simp only [Option.getD_some] at h1 h2 h3
    simp only [monthFromBucket, FundMetrics.getAverages]
    exact ⟨by rw [← h1], by rw [← h2], by rw [← h3]⟩
  · refine ⟨by decide, by decide, by decide⟩

/-- C9 witness: the mean-of-means property applied to the concrete
two-day January input. -/
theorem claim_C9_witness :
    exC9month ∈ processMonthlyData exC9 ∧
      (exC9month.average.nominalRate =
          statistics.average (portfolioSamples StatTriple.nominalRate exC9month.month exC9) ∧
        exC9month.average.afterTaxReturn =
          statistics.average (portfolioSamples StatTriple.afterTaxReturn exC9month.month exC9) ∧
        exC9month.average.realReturn =
          statistics.average (portfolioSamples StatTriple.realReturn exC9month.month exC9)) :=
  ⟨by decide, claim_C9_mean_of_means.1 exC9 exC9month (by decide)⟩

/-- C4: in every produced MonthSummary the funds are stably sorted
descending by average nominalRate — ranks are exactly `1..totalFunds` in
list order (hence unique), a strictly larger average nominalRate always
gets a strictly smaller rank, and within each equal-rate class the
per-month first-appearance order (the bucket's fund-map insertion order)
is preserved. -/
theorem claim_C4_ranking :
    ∀ (input : List DailyRecord) (m : MonthSummary), m ∈ processMonthlyData input →
      (m.funds.map (fun f => f.rank) = List.range' 1 m.totalFunds) ∧
      (∀ (i j : ℕ) (hi : i < m.funds.length) (hj : j < m.funds.length),
        (m.funds.get ⟨i, hi⟩).nominalRate > (m.funds.get ⟨j, hj⟩).nominalRate →
        (m.funds.get ⟨i, hi⟩).rank < (m.funds.get ⟨j, hj⟩).rank) ∧
      (∃ p, p ∈ buildMonths input ∧ m = monthFromBucket p.1 p.2 ∧
        ∀ r : ℚ,
          (m.funds.filter (fun f => decide (f.nominalRate = r))).map (fun f => f.name) =
            ((p.2.fundsData.map toFundAvg).filter
              (fun f => decide (f.nominalRate = r))).map (fun f => f.name)) := by
  intro input m hm
  obtain ⟨p, hp, hme⟩ := mem_processMonthlyData hm
  subst hme
  simp only [monthFromBucket]
  set u := p.2.fundsData.map toFundAvg with hu
  set l := sortCmp fundCmp u with hldef
  have hlen := rankFrom_length 0 l
  have hsorted : l.Pairwise fun a b => fundCmp a b ≤ 0 := by
    refine sortCmp_pairwise fundCmp (fun _ => True) ?_ ?_ u (fun _ _ => trivial)
    · intro a b _ _
      unfold fundCmp
      rcases le_total a.nominalRate b.nominalRate with h | h
      · right; linarith
      · left; linarith
    · intro a b c _ _ _ h1 h2
      unfold fundCmp at h1 h2 ⊢
      linarith
  refine ⟨?_, ?_, ⟨p, hp, rfl, ?_⟩⟩
  · rw [rankFrom_map_rank, hlen]
  · intro i j hi hj hrate
    have hi2 : i < l.length := hlen ▸ hi
    have hj2 : j < l.length := hlen ▸ hj
    have egen : ∀ (n : ℕ) (hn : n < (rankFrom 0 l).length) (hn2 : n < l.length),
        (rankFrom 0 l).get ⟨n, hn⟩ =
          ⟨(l.get ⟨n, hn2⟩).name, (l.get ⟨n, hn2⟩).nominalRate,
            (l.get ⟨n, hn2⟩).afterTaxReturn, (l.get ⟨n, hn2⟩).realReturn,
            (l.get ⟨n, hn2⟩).dataPoints, 0 + n + 1⟩ := by
      intro n hn hn2
      have e1 : (rankFrom 0 l)[n]? = some ((rankFrom 0 l).get ⟨n, hn⟩) := by
        rw [List.getElem?_eq_getElem hn]
        rfl
      have e2 : l[n]? = some (l.get ⟨n, hn2⟩) := by
        rw [List.getElem?_eq_getElem hn2]
        rfl
      have e3 := rankFrom_getElem? 0 l n
      rw [e1, e2] at e3
      exact Option.some.inj e3
    rw [egen i hi hi2, egen j hj hj2] at hrate ⊢
    show 0 + i + 1 < 0 + j + 1
    simp only at hrate
    by_contra hcon
    have hij : j ≤ i := by omega
    rcases Nat.eq_or_lt_of_le hij with heq | hlt
    · subst heq
      exact lt_irrefl _ hrate
    · have hpair := List.pairwise_iff_getElem.mp hsorted j i hj2 hi2 hlt
      unfold fundCmp at hpair
      have hgi : l[i] = l.get ⟨i, hi2⟩ := rfl
      have hgj : l[j] = l.get ⟨j, hj2⟩ := rfl
      rw [hgi, hgj] at hpair
      linarith
  · intro r
    rw [rankFrom_filter_names r 0 l, hldef,
      sortCmp_filter_key fundCmp (fun f => f.nominalRate) (fun a b => rfl) r u]

/-- C4 witness: the ranking invariants applied to the concrete A(5)/B(7)
January month. -/
theorem claim_C4_witness :
    exC4month ∈ processMonthlyData exC8 ∧
      ((exC4month.funds.map (fun f => f.rank) = List.range' 1 exC4month.totalFunds) ∧
        (∀ (i j : ℕ) (hi : i < exC4month.funds.length) (hj : j < exC4month.funds.length),
          (exC4month.funds.get ⟨i, hi⟩).nominalRate >
              (exC4month.funds.get ⟨j, hj⟩).nominalRate →
          (exC4month.funds.get ⟨i, hi⟩).rank < (exC4month.funds.get ⟨j, hj⟩).rank) ∧
        (∃ p, p ∈ buildMonths exC8 ∧ exC4month = monthFromBucket p.1 p.2 ∧
          ∀ r : ℚ,
            (exC4month.funds.filter (fun f => decide (f.nominalRate = r))).map
                (fun f => f.name) =
              ((p.2.fundsData.map toFundAvg).filter
                (fun f => decide (f.nominalRate = r))).map (fun f => f.name))) :=
  ⟨by decide, claim_C4_ranking exC8 exC4month (by decide)⟩

/-- C2 counterexample: a month key with an unrecognised month name does
NOT raise any error — `indexOf` yields −1 and the pipeline of
`processMonthlyData` plus `main`'s summary completes normally, silently
sorting "BOGUS 2023" before "JANUARY 2023". -/
theorem claim_C2_counterexample :
    (mainCore [exC2Jan, exC2Bogus]).isSome = true ∧
      (mainCore [exC2Jan, exC2Bogus]).map (fun pr => pr.2.map fun m => m.month) =
        some ["BOGUS 2023", "JANUARY 2023"] := by
  refine ⟨by decide, by decide⟩

/-- C2 amended: an empty input does make the summary step of `main` fail
(`monthlyData[0].metadata` throws, caught and turned into a non-zero
exit), but an unrecognised month name is silently defaulted: `indexOf`
returns −1, so for equal year tokens such a key compares strictly before
every recognised month and no error is raised. -/
theorem claim_C2_amended :
    buildSummary [] = none ∧ mainCore [] = none ∧
      (∀ ma mb y : String, (∀ c ∈ ma.data, c ≠ ' ') → (∀ c ∈ y.data, c ≠ ' ') →
        ma ∉ monthTable → mb ∈ monthTable →
        monthKeyCmp (ma ++ " " ++ y) (mb ++ " " ++ y) < 0) := by
  refine ⟨rfl, rfl, ?_⟩
  intro ma mb y hma hy hnotma hmb
  have hmbnb : ∀ c ∈ mb.data, c ≠ ' ' := monthTable_no_blank mb hmb
  unfold monthKeyCmp
  rw [jsSplit_two ma y hma hy, jsSplit_two mb y hmbnb hy]
  simp only [List.getElem?_cons_succ, List.getElem?_cons_zero, List.headD_cons]
  rw [if_neg (by simp)]
  have h1 : indexOfAux monthTable ma 0 = -1 := indexOfAux_not_mem monthTable ma hnotma 0
  have h2 : (0 : ℤ) ≤ indexOfAux monthTable mb 0 := indexOfAux_ge monthTable mb hmb 0
  rw [h1]
  have h3 : (-1 : ℤ) - indexOfAux monthTable mb 0 < 0 := by omega
  exact_mod_cast h3

/-- C2 witness: the comparator strictly prefers the unrecognised
"BOGUS 2023" over "JANUARY 2023". -/
theorem claim_C2_witness :
    (∀ c ∈ "BOGUS".data, c ≠ ' ') ∧ (∀ c ∈ "2023".data, c ≠ ' ') ∧
      "BOGUS" ∉ monthTable ∧ "JANUARY" ∈ monthTable ∧
      monthKeyCmp ("BOGUS" ++ " " ++ "2023") ("JANUARY" ++ " " ++ "2023") < 0 :=
  ⟨by decide, by decide, by decide, by decide,
    claim_C2_amended.2.2 "BOGUS" "JANUARY" "2023" (by decide) (by decide) (by decide)
      (by decide)⟩

/-- On well-formed keys whose distinct year spellings denote distinct
integers, the chronological comparator agrees with the lexicographic
(year integer, month index) order. -/
theorem monthCmp_le_iff (a b : MonthSummary)
    (ha : wfMonthKey a.month) (hb : wfMonthKey b.month)
    (hinj : keyYearTok a.month ≠ keyYearTok b.month →
      specYearNat a.month ≠ specYearNat b.month) :
    (monthCmp a b ≤ 0 ↔ chronLE a b) := by
  obtain ⟨ham, hay⟩ := ha
  obtain ⟨hbm, hby⟩ := hb
  cases hya : keyYearTok a.month with
  | none => rw [hya] at hay; exact absurd hay (by simp [yearDigits])
  | some ya =>
  cases hyb : keyYearTok b.month with
  | none => rw [hyb] at hby; exact absurd hby (by simp [yearDigits])
  | some yb =>
  rw [hya] at hay
  rw [hyb] at hby
  have hda : ya.data.all (fun c => c.isDigit) = true := by simpa [yearDigits] using hay
  have hdb : yb.data.all (fun c => c.isDigit) = true := by simpa [yearDigits] using hby
  have hva : specYearNat a.month = natOfDigits ya.data := by
    unfold specYearNat
    rw [hya]
    rfl
  have hvb : specYearNat b.month = natOfDigits yb.data := by
    unfold specYearNat
    rw [hyb]
    rfl
  have hna : jsNumber (some ya) = some ((natOfDigits ya.data : ℕ) : ℚ) := by
    unfold jsNumber
    simp only
    rw [if_pos hda]
  have hnb : jsNumber (some yb) = some ((natOfDigits yb.data : ℕ) : ℚ) := by
    unfold jsNumber
    simp only
    rw [if_pos hdb]
  unfold keyYearTok at hya hyb
  have hcmp : monthCmp a b =
      if some ya ≠ some yb then jsNumDiff (some ya) (some yb)
      else ((specMonthIdx a.month - specMonthIdx b.month : ℤ) : ℚ) := by
    unfold monthCmp monthKeyCmp specMonthIdx keyMonthTok
    simp only
    rw [hya, hyb]
  by_cases hyy : ya = yb
  · subst hyy
    rw [hcmp, if_neg (by simp)]
    unfold chronLE
    rw [hva, hvb]
    have hcast : (((specMonthIdx a.month - specMonthIdx b.month : ℤ) : ℚ) ≤ 0) ↔
        specMonthIdx a.month ≤ specMonthIdx b.month := by
      constructor
      · intro h
        have h2 : (specMonthIdx a.month - specMonthIdx b.month : ℤ) ≤ 0 := by exact_mod_cast h
        omega
      · intro h
        have h2 : (specMonthIdx a.month - specMonthIdx b.month : ℤ) ≤ 0 := by omega
        exact_mod_cast h2
    rw [hcast]
    constructor
    · intro h
      exact Or.inr ⟨rfl, h⟩
    · rintro (h | ⟨-, h⟩)
      · exact absurd h (lt_irrefl _)
      · exact h
  · have hvv : natOfDigits ya.data ≠ natOfDigits yb.data := by
      have := hinj (by unfold keyYearTok; rw [hya, hyb]; exact fun h => hyy (Option.some.inj h))
      rw [hva, hvb] at this
      exact this
    rw [hcmp, if_pos (by simpa using hyy)]
    unfold jsNumDiff
    rw [hna, hnb]
    simp only
    unfold chronLE
    rw [hva, hvb]
    constructor
    · intro h
      have hle : (natOfDigits ya.data : ℚ) ≤ (natOfDigits yb.data : ℚ) := by linarith
      have : natOfDigits ya.data ≤ natOfDigits yb.data := by exact_mod_cast hle
      exact Or.inl (by omega)
    · rintro (h | ⟨h, -⟩)
      · have : (natOfDigits ya.data : ℚ) ≤ (natOfDigits yb.data : ℚ) := by
          exact_mod_cast Nat.le_of_lt h
        linarith
      · exact absurd h hvv

/-- C6 counterexample: the output is not, in general, sorted by
(year as integer, calendar month index): the comparator tests year
tokens for STRING inequality before subtracting numerically, so
"DECEMBER 02023" and "JANUARY 2023" (same integer year 2023) compare as
equal and keep insertion order, leaving December before January. -/
theorem claim_C6_counterexample :
    (processMonthlyData exC6bad).map (fun m => m.month) =
        ["DECEMBER 02023", "JANUARY 2023"] ∧
      ¬ (processMonthlyData exC6bad).Pairwise chronLE := by
  refine ⟨by decide, by decide⟩

/-- C6 amended: provided every output month key has a recognised month
name and a digit-string year token, and distinct year spellings denote
distinct integers, the output is sorted ascending by (year integer,
calendar month index); the spec's example sorts as stated. -/
theorem claim_C6_amended :
    (∀ input : List DailyRecord,
      (∀ m ∈ processMonthlyData input, wfMonthKey m.month) →
      (∀ m1 ∈ processMonthlyData input, ∀ m2 ∈ processMonthlyData input,
        keyYearTok m1.month ≠ keyYearTok m2.month →
          specYearNat m1.month ≠ specYearNat m2.month) →
      (processMonthlyData input).Pairwise chronLE) ∧
    (processMonthlyData exC6good).map (fun m => m.month) =
      ["MARCH 2023", "DECEMBER 2023", "JANUARY 2024"] := by
  constructor
  · intro input hwf hinj
    have hout : processMonthlyData input =
        sortCmp monthCmp ((buildMonths input).map fun p => monthFromBucket p.1 p.2) := rfl
    set pre := (buildMonths input).map fun p => monthFromBucket p.1 p.2 with hpre
    have hmem : ∀ m : MonthSummary, m ∈ pre → m ∈ processMonthlyData input := by
      intro m hm
      rw [hout]
      exact (mem_sortCmp monthCmp).mpr hm
    have hP : ∀ m ∈ pre, wfMonthKey m.month := fun m hm => hwf m (hmem m hm)
    have hpair : (sortCmp monthCmp pre).Pairwise fun x y => monthCmp x y ≤ 0 := by
      refine sortCmp_pairwise monthCmp (fun m => m ∈ pre ∧ wfMonthKey m.month) ?_ ?_ pre
        (fun m hm => ⟨hm, hP m hm⟩)
      · intro x y hx hy
        rw [monthCmp_le_iff x y hx.2 hy.2 (hinj x (hmem x hx.1) y (hmem y hy.1)),
          monthCmp_le_iff y x hy.2 hx.2 (hinj y (hmem y hy.1) x (hmem x hx.1))]
        unfold chronLE
        omega
      · intro x y z hx hy hz h1 h2
        rw [monthCmp_le_iff x y hx.2 hy.2 (hinj x (hmem x hx.1) y (hmem y hy.1))] at h1
        rw [monthCmp_le_iff y z hy.2 hz.2 (hinj y (hmem y hy.1) z (hmem z hz.1))] at h2
        rw [monthCmp_le_iff x z hx.2 hz.2 (hinj x (hmem x hx.1) z (hmem z hz.1))]
        unfold chronLE at h1 h2 ⊢
        omega
    rw [hout]
    refine hpair.imp_of_mem ?_
    intro x y hxm hym hle
    have hx2 : x ∈ processMonthlyData input := by
      rw [hout]
      exact hxm
    have hy2 : y ∈ processMonthlyData input := by
      rw [hout]
      exact hym
    exact (monthCmp_le_iff x y (hwf x hx2) (hwf y hy2) (hinj x hx2 y hy2)).mp hle
  · decide

/-- C6 witness: the well-formedness side conditions hold on the spec's
three-month example and the sortedness follows by the theorem. -/
theorem claim_C6_witness :
    (∀ m ∈ processMonthlyData exC6good, wfMonthKey m.month) ∧
      (∀ m1 ∈ processMonthlyData exC6good, ∀ m2 ∈ processMonthlyData exC6good,
        keyYearTok m1.month ≠ keyYearTok m2.month →
          specYearNat m1.month ≠ specYearNat m2.month) ∧
      (processMonthlyData exC6good).Pairwise chronLE :=
  ⟨by decide, by decide, claim_C6_amended.1 exC6good (by decide) (by decide)⟩

end ClaimVerification
